import Mathlib

/-!
A shallow embedding of the `warp` engine (github.com/dezlitz/warp).

This file models the Go sources `engine.go`, `optional.go` and the validation
file (`validate*.go`) of the `warp` package, and proves properties of the
model corresponding to the specification's claims.

Modelling conventions:
* Go `reflect.Type` is modelled by the inductive `Warp.Ty`.  Named concrete
  types carry a name id, an underlying-kind id (two named types are
  `ConvertibleTo` each other when their underlying kinds agree), and the list
  of interface ids they implement.  `Ty.opt t` models `Optional[t]`,
  `Ty.ctxT` models `context.Context` and `Ty.errT` models `error`.
* Go runtime values (`reflect.Value`) are modelled by `Warp.Val`; an
  `Optional` value stores `none` for `IsSet = false` and `some v` for
  `IsSet = true` holding `v` in its `Val` field.
* The `sync.Map` value store is modelled by an association list
  `List (Ty × Val)` with upsert/lookup.
* Error returns (`error` / `nil`) are modelled by `Option String`
  (`none` = nil error, `some msg` = non-nil).
* Goroutine-per-function concurrency is modelled by executing the tasks of
  `Run` sequentially in a caller-chosen schedule; theorems assume the
  schedule respects the readiness-signal discipline (`ScheduleOK`), which is
  exactly the set of orders the channel waits permit.  After the first
  error, the `select` between the cancelled context and an already-closed
  notifier channel is nondeterministic in Go; the model resolves that race
  towards `ctx.Done()` (the behaviour the errgroup cancellation is designed
  to produce).
-/

namespace Warp

/-- Model of `reflect.Type` restricted to the universe of types the engine
manipulates: named concrete types (with a name id, an underlying-kind id and
a list of implemented interface ids), interface types, `Optional[T]`
(`optional.go`), `context.Context` and `error`. -/
inductive Ty where
  | base : Nat → Nat → List Nat → Ty
  | iface : Nat → Ty
  | opt : Ty → Ty
  | ctxT : Ty
  | errT : Ty
deriving DecidableEq, Repr

/-- Model of a Go runtime value.  `Val.optN t` is the zero `Optional[t]`
(`IsSet = false`); `Val.optS t v` is an `Optional[t]` with `IsSet = true`
and `Val = v`.  `Val.errV none` is a nil error value. -/
inductive Val where
  | base : Nat → Nat → List Nat → Nat → Val
  | optN : Ty → Val
  | optS : Ty → Val → Val
  | ctxV : Val
  | errV : Option String → Val
deriving DecidableEq, Repr

/-- `reflect.Value.Type()`: the dynamic type of a value. -/
def tyOf : Val → Ty
  | .base n k l _ => .base n k l
  | .optN t => .opt t
  | .optS t _ => .opt t
  | .ctxV => .ctxT
  | .errV _ => .errT

/-- `unwrapOptional` (optional.go): unwraps one `Optional` layer, returning
the inner type and whether the type was an `Optional`. -/
def unwrapOptional : Ty → Ty × Bool
  | .opt t => (t, true)
  | t => (t, false)

/-- `isOptional` (optional.go): whether the type is an `Optional[T]`. -/
def isOptionalT (t : Ty) : Bool :=
  (unwrapOptional t).2

/-- A display string for a type, standing in for Go's `reflect.Type.String`. -/
def tyStr : Ty → String
  | .base n _ _ => "T" ++ toString n
  | .iface n => "I" ++ toString n
  | .opt t => "Optional[" ++ tyStr t ++ "]"
  | .ctxT => "context.Context"
  | .errT => "error"

/-- Model of a registered Go function: a display name (`referTo`), the
ordered parameter types, the ordered return types, and the user body mapping
the bound argument values to the returned values. -/
structure Fn where
  name : String
  ins : List Ty
  outs : List Ty
  body : List Val → List Val

/-- The `reflect.Type` of a function value: its signature.  Two functions
with the same parameter and return types have equal reflect types in Go,
which is what `checkCyclicDependancies` compares. -/
def sig (f : Fn) : List Ty × List Ty :=
  (f.ins, f.outs)

/-- The non-error output types of a function, in declaration order
(the slots `storeOutputs` stores and `closeNotifiers` closes). -/
def nonErrOuts (f : Fn) : List Ty :=
  f.outs.filter (fun t => t ≠ Ty.errT)

/-- `getPosOfType[context.Context](inputs)` (engine.go): index of the first
`context.Context` parameter, if any. -/
def ctxPos (f : Fn) : Option Nat :=
  f.ins.findIdx? (fun t => t = Ty.ctxT)

/-- `getPosOfType[error](outputs)` (engine.go): index of the first `error`
return slot, if any. -/
def errPos (f : Fn) : Option Nat :=
  f.outs.findIdx? (fun t => t = Ty.errT)

/-! ## Per-function validation (the validation file) -/

/-- `validateFunctionHasOutputs`. -/
def validateFunctionHasOutputs (f : Fn) : Option String :=
  if f.outs.isEmpty then some "must not have no return type(s)" else none

/-- `validateFunctionHasAtLeastOneNonErrorValueOutput`. -/
def validateFunctionHasAtLeastOneNonErrorValueOutput (f : Fn) : Option String :=
  if (f.outs.filter (fun t => t ≠ Ty.errT)).length = 0 then
    some "must have at least 1 return value type (excluding error)"
  else none

/-- `validateFunctionHasReturnsAtMostOneError`. -/
def validateFunctionHasReturnsAtMostOneError (f : Fn) : Option String :=
  if (f.outs.filter (fun t => t = Ty.errT)).length > 1 then
    some "must have no more than 1 error return type"
  else none

/-- `validateFunctionInputsNotError`. -/
def validateFunctionInputsNotError (f : Fn) : Option String :=
  if f.ins.any (fun t => t = Ty.errT) then
    some "must not have input param(s) of type error"
  else none

/-- `validateFunctionOutputsNotContext`. -/
def validateFunctionOutputsNotContext (f : Fn) : Option String :=
  if f.outs.any (fun t => t = Ty.ctxT) then
    some "must not have any context.Context return value type(s)"
  else none

/-- `validateDistinctInputOutputTypes`: no parameter's unwrapped type may
equal a non-error return's unwrapped type. -/
def validateDistinctInputOutputTypes (f : Fn) : Option String :=
  f.outs.findSome? fun outT =>
    if outT = Ty.errT then none
    else
      let outTU := (unwrapOptional outT).1
      f.ins.findSome? fun inT =>
        if (unwrapOptional inT).1 = outTU then
          some ("input type " ++ tyStr outTU ++ " is also an output type")
        else none

/-- Helper for `validateSameInputTypes`: walks the parameter list carrying
the set of unwrapped types seen so far (the `in` map in the source). -/
def sameInputGo (seen : List Ty) : List Ty → Option String
  | [] => none
  | inT :: rest =>
    let u := (unwrapOptional inT).1
    if seen.contains u then
      some ("function takes the same parameter type " ++ tyStr u ++ " more than once")
    else sameInputGo (u :: seen) rest

/-- `validateSameInputTypes`: no two parameters share an unwrapped type. -/
def validateSameInputTypes (f : Fn) : Option String :=
  sameInputGo [] f.ins

/-- Modelled from the spec: the body of `validateNoOutputOptionalTypes` is
not under src/ — engine.go only lists it among the per-function validators
and the repository's test suite exercises it.  The spec's §4.1 validator
table omits a corresponding rule (the spec treats `Optional` outputs as
supported), but the in-repository test expects `Initialize` to reject a
function returning an `Optional` type with an error containing
"must not be an optional type".  The model follows the validator's name and
its test: it rejects any `Optional` return type. -/
def validateNoOutputOptionalTypes (f : Fn) : Option String :=
  f.outs.findSome? fun outT =>
    if isOptionalT outT then
      some (tyStr outT ++ " must not be an optional type")
    else none

/-- The per-function validators in the order `Initialize` runs them.
(`validateTypeFunction` and `validateFunctionNotVariadic` are omitted:
in this model every registered item is a non-variadic function by
construction.) -/
def perFnValidators : List (Fn → Option String) :=
  [validateFunctionHasOutputs,
   validateFunctionHasAtLeastOneNonErrorValueOutput,
   validateFunctionHasReturnsAtMostOneError,
   validateFunctionInputsNotError,
   validateFunctionOutputsNotContext,
   validateDistinctInputOutputTypes,
   validateSameInputTypes,
   validateNoOutputOptionalTypes]

/-- Runs the per-function validators on one function, first failure wins. -/
def validateFn (f : Fn) : Option String :=
  perFnValidators.findSome? (fun v => v f)

/-! ## Cross-function validation -/

/-- All providers of an output type, in registration order and with one
occurrence per output slot (the `outTypes` map of
`validateOutputTypesUnique` appends the function once per matching return
slot). -/
def providersOf (fns : List Fn) (t : Ty) : List Fn :=
  (fns.map fun f => ((nonErrOuts f).filter (fun u => u = t)).map fun _ => f).flatten

/-- `validateOutputTypesUnique`: every non-error output type is produced by
exactly one function; on violation the error names all offending functions.
(The Go source picks the offending type by map-iteration order; the model
deterministically picks the first, in output-declaration order, with more
than one provider.) -/
def validateOutputTypesUnique (fns : List Fn) : Option String :=
  (fns.map nonErrOuts).flatten.findSome? fun t =>
    let provs := providersOf fns t
    if provs.length > 1 then
      some ("output value type " ++ tyStr t ++ " already provided to the engine by "
        ++ " AND ".intercalate (provs.map Fn.name))
    else none

/-- `cyclicDependencyPath`: the " -> "-joined display names of the path. -/
def cyclicDependencyPath (path : List Fn) : String :=
  " -> ".intercalate (path.map Fn.name)

/-- `checkCyclicDependancies`: depth-first walk along the edges
"unwrapped output type → functions whose unwrapped input type matches",
failing when a function type already on the current path is revisited.
The `fuel` argument makes the recursion structural; with
`fuel = fns.length + 1` it is never exhausted, because the path only grows
with functions whose signatures are not yet on it (the exhaustion branch is
given the same message prefix so that it cannot change the observable shape
of errors). -/
def checkCyclic (fuel : Nat) (f : Fn) (path : List Fn) (fns : List Fn) : Option String :=
  match fuel with
  | 0 => some "cyclic dependency detected: [fuel exhausted]"
  | fuel + 1 =>
    if (path.map sig).contains (sig f) then
      some ("cyclic dependency detected: " ++ cyclicDependencyPath path)
    else
      f.outs.findSome? fun outT =>
        if outT = Ty.errT then none
        else
          let outTU := (unwrapOptional outT).1
          fns.findSome? fun g =>
            g.ins.findSome? fun inT =>
              if (unwrapOptional inT).1 = outTU then
                checkCyclic fuel g (path ++ [f]) fns
              else none

/-- `validateNoCyclicDependancies`: runs the cyclic check from every
function in turn. -/
def validateNoCyclicDependancies (fns : List Fn) : Option String :=
  fns.findSome? fun f => checkCyclic (fns.length + 1) f [] fns

/-! ## Engine construction (`Initialize`) -/

/-- The `Engine` structure (engine.go): the registered functions, the set
of all non-error output types (`outputTypes`) and the `initialized` flag. -/
structure Engine where
  functions : List Fn
  outputTypes : List Ty
  initialized : Bool

/-- `wrapValidationError`. -/
def wrapValidationError (msg : String) : String :=
  "input validation error: " ++ msg

/-- `wrapValidationErrorWithInput`. -/
def wrapValidationErrorWithInput (f : Fn) (msg : String) : String :=
  "input " ++ f.name ++ " caused validation error: " ++ msg

/-- `Initialize` (engine.go): validates the functions (per-function pass in
registration order, then output uniqueness, then the cyclic check) and
builds the engine whose `outputTypes` are all non-error return types. -/
def Initialize (fns : List Fn) : Except String Engine :=
  if fns.isEmpty then
    .error (wrapValidationError "engine must be initialized with at least one function")
  else
    match fns.findSome? (fun f => (validateFn f).map (wrapValidationErrorWithInput f)) with
    | some e => .error e
    | none =>
      match validateOutputTypesUnique fns with
      | some e => .error (wrapValidationError e)
      | none =>
        match validateNoCyclicDependancies fns with
        | some e => .error (wrapValidationError e)
        | none => .ok ⟨fns, (fns.map nonErrOuts).flatten, true⟩

/-! ## The value store -/

/-- The value store of one `Run` call, modelling the `sync.Map`:
an association list from types to values. -/
abbrev Store := List (Ty × Val)

/-- `sync.Map.Store`: sets the value for a key, overwriting any previous
entry (in place) and appending at the end otherwise. -/
def storeSet : Store → Ty → Val → Store
  | [], k, v => [(k, v)]
  | p :: t, k, v => if p.1 = k then (k, v) :: t else p :: storeSet t k v

/-- `sync.Map.Load`. -/
def storeGet (s : Store) (k : Ty) : Option Val :=
  (List.find? (fun p => p.1 = k) s).map Prod.snd

/-- `loadValue` (engine.go): looks up the unwrapped type of the parameter.
A missing entry resolves to the zero `Optional` for an optional parameter
and to "absent" for a required one; a present entry is wrapped with
`newOptional` (`IsSet = true`) for an optional parameter and bound directly
for a required one. -/
def loadValue (s : Store) (inT : Ty) : Option Val :=
  let u := unwrapOptional inT
  match storeGet s u.1 with
  | none => if u.2 then some (Val.optN u.1) else none
  | some v => if u.2 then some (Val.optS u.1 v) else some v

/-- `getError` (engine.go): the value of the error slot, when present and
non-nil. -/
def getError (outVals : List Val) (ep : Option Nat) : Option String :=
  match ep with
  | none => none
  | some i =>
    match outVals.get? i with
    | some (Val.errV (some m)) => some m
    | _ => none

/-- `storeOutputs` (engine.go): stores each non-error output value, as
returned, under its declared output type. -/
def storeOutputs (s : Store) (outVals : List Val) (outs : List Ty) : Store :=
  (outs.zip outVals).foldl
    (fun acc p => if p.1 = Ty.errT then acc else storeSet acc p.1 p.2) s

/-! ## One task (the closure built by `buildRunFuncs`) -/

/-- The observable state of one `Run` call: the value store, the list of
notifier-close events (`closeNotifiers`), the names of the functions whose
user body was invoked (`fnV.Call`), and the first reported error
(`errgroup` keeps only the first). -/
structure RState where
  store : Store
  closed : List Ty
  called : List String
  firstErr : Option String
deriving Repr

/-- Result of resolving a task's parameter list. -/
inductive Resolved where
  | aborted
  | skipped
  | ok : List Val → Resolved
deriving DecidableEq, Repr

/-- The input-resolution loop of a task (engine.go, `buildRunFuncs`):
walks the parameter slots in order; the context slot binds the context;
any other slot first waits on the readiness signal of its unwrapped type
when that type has a notifier (`waitForSignal`) — after cancellation this
wait returns the context's error (`Resolved.aborted`) — and then loads the
value (`loadValue`); a missing required value skips the task
(`Resolved.skipped`). -/
def resolveGo (cancelled : Bool) (notif : List Ty) (s : Store) (cp : Option Nat) :
    Nat → List Ty → List Val → Resolved
  | _, [], acc => .ok acc
  | i, inT :: rest, acc =>
    if cp = some i then
      resolveGo cancelled notif s cp (i + 1) rest (acc ++ [Val.ctxV])
    else if notif.contains (unwrapOptional inT).1 && cancelled then
      .aborted
    else
      match loadValue s inT with
      | none => .skipped
      | some v => resolveGo cancelled notif s cp (i + 1) rest (acc ++ [v])

/-- Resolves all parameter slots of a function against the store. -/
def resolveIns (cancelled : Bool) (notif : List Ty) (s : Store) (f : Fn) : Resolved :=
  resolveGo cancelled notif s (ctxPos f) 0 f.ins []

/-- One task of `Run` (the closure `buildRunFuncs` creates): resolve the
inputs; on a missing required input close all non-error output notifiers
and finish without error and without calling the body; otherwise call the
body, report its error if the error slot is non-nil (the errgroup keeps the
first error reported), else store the outputs and close the notifiers. -/
def runTask (notif : List Ty) (st : RState) (f : Fn) : RState :=
  match resolveIns st.firstErr.isSome notif st.store f with
  | .aborted => st
  | .skipped => { st with closed := st.closed ++ nonErrOuts f }
  | .ok args =>
    let outVals := f.body args
    match getError outVals (errPos f) with
    | some e =>
      { st with called := st.called ++ [f.name],
                firstErr := some (st.firstErr.getD e) }
    | none =>
      { st with called := st.called ++ [f.name],
                store := storeOutputs st.store outVals f.outs,
                closed := st.closed ++ nonErrOuts f }

/-- Executes the tasks in schedule order. -/
def runTasks (notif : List Ty) (sched : List Fn) (st : RState) : RState :=
  sched.foldl (runTask notif) st

/-! ## Result collection (`convert` and the `storage.Range` loop) -/

/-- Whether the interface with the given id is implemented by a type. -/
def implementsI (t : Ty) (i : Nat) : Bool :=
  match t with
  | .base _ _ impls => impls.contains i
  | _ => false

/-- The Go type assertion `v.Interface().(T)`: succeeds on an exact dynamic
type match or, for an interface target, when the dynamic type implements
the interface. -/
def assertTo (v : Val) (target : Ty) : Bool :=
  tyOf v = target ||
    (match target with
     | .iface i => implementsI (tyOf v) i
     | _ => false)

/-- `reflect.Type.ConvertibleTo`, restricted to the model's universe:
every type converts to itself, two named concrete types convert when their
underlying kinds agree, and a type converts to an interface it
implements. -/
def convertibleTo (s target : Ty) : Bool :=
  s = target ||
    (match s, target with
     | .base _ k _, .base _ k2 _ => k = k2
     | _, _ => false) ||
    (match target with
     | .iface i => implementsI s i
     | _ => false)

/-- `reflect.Value.Convert`: retypes a named concrete value to the target
named type, keeping its payload. -/
def retype (v : Val) (target : Ty) : Val :=
  match v, target with
  | .base _ _ _ p, .base n k l => .base n k l p
  | _, _ => v

/-- `convert[T]` (engine.go): the value on an exact type-assertion match,
else the converted value when the dynamic type is convertible to the
target, else nothing. -/
def convert (target : Ty) (v : Val) : Option Val :=
  if assertTo v target then some v
  else if convertibleTo (tyOf v) target then some (retype v target)
  else none

/-- The collection loop of `Run` (engine.go lines 138-149): every stored
value whose dynamic type is one of the engine's output types and which
converts to the result type. -/
def collect (target : Ty) (outputTypes : List Ty) (s : Store) : List Val :=
  (s.filter (fun p => outputTypes.contains (tyOf p.2))).filterMap
    (fun p => convert target p.2)

/-! ## `Run` -/

/-- `validateProvided` (engine.go): walks the provided values carrying the
set of types already seen; a repeated type fails with "duplicate provided
input type", a type that is one of the engine's output types fails with
"provided input type matches function output type". -/
def validateProvidedGo (outputs : List Ty) (checked : List Ty) : List Val → Option String
  | [] => none
  | v :: rest =>
    let inTy := tyOf v
    if checked.contains inTy then
      some ("duplicate provided input type: " ++ tyStr inTy)
    else if outputs.contains inTy then
      some ("provided input type matches function output type: " ++ tyStr inTy)
    else
      validateProvidedGo outputs (inTy :: checked) rest

/-- `validateProvided` at the top level. -/
def validateProvided (provided : List Val) (outputs : List Ty) : Option String :=
  validateProvidedGo outputs [] provided

/-- The storage seeding loop of `Run`: stores each provided value under its
own dynamic type (`storage.Store(reflect.TypeOf(in), reflect.ValueOf(in))`). -/
def seedStore (provided : List Val) : Store :=
  provided.foldl (fun s v => storeSet s (tyOf v) v) []

/-- `Run` (engine.go), instrumented to also return the final run state.
`sched` is the order in which the model executes the per-function tasks
(Go runs them as goroutines; any signal-respecting order may occur). -/
def RunFull (target : Ty) (e : Engine) (provided : List Val) (sched : List Fn) :
    Except String (List Val) × RState :=
  let st0 : RState := ⟨[], [], [], none⟩
  if ¬ e.initialized then
    (.error "error running engine that has not been initialized", st0)
  else
    match validateProvided provided e.outputTypes with
    | some err => (.error err, st0)
    | none =>
      let final := runTasks e.outputTypes sched ⟨seedStore provided, [], [], none⟩
      match final.firstErr with
      | some err => (.error err, final)
      | none => (.ok (collect target e.outputTypes final.store), final)

/-- `Run`'s return value. -/
def Run (target : Ty) (e : Engine) (provided : List Val) (sched : List Fn) :
    Except String (List Val) :=
  (RunFull target e provided sched).1

/-! ## Derived notions used to state the claims -/

/-- The unwrapped types of the required parameter slots of a function:
every slot that is neither the context slot (`ctxPos`) nor an `Optional`.
(For a non-`Optional` slot the unwrapped type is the slot type itself.) -/
def requiredTysGo (cp : Option Nat) : Nat → List Ty → List Ty
  | _, [] => []
  | i, inT :: rest =>
    if cp = some i then requiredTysGo cp (i + 1) rest
    else if isOptionalT inT then requiredTysGo cp (i + 1) rest
    else inT :: requiredTysGo cp (i + 1) rest

/-- The required input types of a function. -/
def requiredTys (f : Fn) : List Ty :=
  requiredTysGo (ctxPos f) 0 f.ins

/-- Fuel-indexed witness that a type is *absent* for a run: it is not
provided, and every function producing it has some required input type that
is itself absent (in particular any unprovided type no function
produces). -/
def absentB (providedTys : List Ty) (fns : List Fn) : Nat → Ty → Bool
  | 0, _ => false
  | n + 1, U =>
    !(providedTys.contains U) &&
      fns.all fun f =>
        !((nonErrOuts f).contains U) ||
          (requiredTys f).any fun V => absentB providedTys fns n V

/-- A type is *absent* for a run when some fuel witnesses it.  This is the
static characterisation of the types whose readiness signal fires without a
stored value. -/
def Absent (providedTys : List Ty) (fns : List Fn) (U : Ty) : Prop :=
  ∃ n, absentB providedTys fns n U = true

/-- The dependency edge of `checkCyclicDependancies`: some non-error output
of `f` has the same unwrapped type as some input of `g`. -/
def Edge (f g : Fn) : Prop :=
  ∃ outT ∈ f.outs, outT ≠ Ty.errT ∧
    ∃ inT ∈ g.ins, (unwrapOptional inT).1 = (unwrapOptional outT).1

/-- A walk in the dependency graph along `Edge`, staying inside `fns`. -/
def EdgeChain (fns : List Fn) : Fn → List Fn → Prop
  | _, [] => True
  | f, g :: r => Edge f g ∧ g ∈ fns ∧ EdgeChain fns g r

/-- A schedule respects the readiness signals when no function ever has to
wait for a function scheduled after it: an earlier function never consumes
(under unwrapping) a type produced by a later one.  These are exactly the
task orders the channel waits of the Go runtime can produce. -/
def ScheduleOK (sched : List Fn) : Prop :=
  sched.Pairwise fun f g => ∀ inT ∈ f.ins, (unwrapOptional inT).1 ∉ nonErrOuts g

/-! ## String containment (used to state "the error message contains ...") -/

/-- Whether `needle` is a leading segment of `hay`. -/
def startsL : List Char → List Char → Bool
  | _, [] => true
  | [], _ :: _ => false
  | a :: as, b :: bs => a = b && startsL as bs

/-- Whether `needle` occurs contiguously inside `hay`. -/
def subL : List Char → List Char → Bool
  | [], needle => needle.isEmpty
  | hay@(_ :: t), needle => startsL hay needle || subL t needle

/-- The error message `hay` contains the text `needle`. -/
abbrev strHas (hay needle : String) : Prop := subL hay.data needle.data = true

instance exceptDecEq {ε α : Type} [DecidableEq ε] [DecidableEq α] :
    DecidableEq (Except ε α) := fun x y =>
  match x, y with
  | .ok a, .ok b =>
    if h : a = b then .isTrue (by rw [h]) else .isFalse (by intro hh; cases hh; exact h rfl)
  | .error a, .error b =>
    if h : a = b then .isTrue (by rw [h]) else .isFalse (by intro hh; cases hh; exact h rfl)
  | .ok _, .error _ => .isFalse (by intro hh; cases hh)
  | .error _, .ok _ => .isFalse (by intro hh; cases hh)

/-! ## Concrete types, values and functions used by the claims

The base types play the role of distinct named Go types (distinct
underlying kinds unless stated otherwise), mirroring the `inType*` /
`outType*` types of the repository's tests. -/

/-- The type `A`. -/
def tA : Ty := Ty.base 1 1 []

/-- The type `B`. -/
def tB : Ty := Ty.base 2 2 []

/-- The type `C`. -/
def tC : Ty := Ty.base 3 3 []

/-- The type `T`. -/
def tT : Ty := Ty.base 5 5 []

/-- The type `U`. -/
def tU : Ty := Ty.base 6 6 []

/-- A value of type `A`. -/
def vA : Val := Val.base 1 1 [] 10

/-- A value of type `B`. -/
def vB : Val := Val.base 2 2 [] 20

/-- A value of type `C`. -/
def vC : Val := Val.base 3 3 [] 30

/-- A value of type `T`. -/
def vT : Val := Val.base 5 5 [] 50

/-- A second value of type `T`. -/
def vT2 : Val := Val.base 5 5 [] 51

/-- A value of type `U`. -/
def vU : Val := Val.base 6 6 [] 60

/-- `mkB(A) → Optional[B]` returning `IsSet = true` (claim C1). -/
def mkBopt : Fn :=
  ⟨"mkBopt", [tA], [Ty.opt tB, Ty.errT], fun _ => [Val.optS tB vB, Val.errV none]⟩

/-- `mkB(A) → Optional[B]` returning `IsSet = false` (claim C1). -/
def mkBoptUnset : Fn :=
  ⟨"mkBoptUnset", [tA], [Ty.opt tB, Ty.errT], fun _ => [Val.optN tB, Val.errV none]⟩

/-- `mkC(B) → C` (claim C1). -/
def mkC1 : Fn := ⟨"mkC1", [tB], [tC, Ty.errT], fun _ => [vC, Val.errV none]⟩

/-- A function `T → U` (claims C2 and C4). -/
def g2 : Fn := ⟨"g2", [tT], [tU, Ty.errT], fun _ => [vU, Val.errV none]⟩

/-- The engine `Initialize [g2]` builds. -/
def e2 : Engine := ⟨[g2], [tU], true⟩

/-- A function `A → T` (claim C3). -/
def f3 : Fn := ⟨"f3", [tA], [tT, Ty.errT], fun _ => [vT, Val.errV none]⟩

/-- The engine `Initialize [f3]` builds. -/
def e3 : Engine := ⟨[f3], [tT], true⟩

/-- A producer of bare `T` (claim C5). -/
def f5T : Fn := ⟨"funcF", [tA], [tT, Ty.errT], fun _ => [vT, Val.errV none]⟩

/-- A producer of `Optional[T]` (claim C5). -/
def f5O : Fn :=
  ⟨"funcG", [tB], [Ty.opt tT, Ty.errT], fun _ => [Val.optS tT vT, Val.errV none]⟩

/-- Two producers of the same raw type `T` (claim C5 witness). -/
def d5a : Fn := ⟨"d5a", [tA], [tT, Ty.errT], fun _ => [vT, Val.errV none]⟩

/-- Second producer of raw `T` (claim C5 witness). -/
def d5b : Fn := ⟨"d5b", [tB], [tT, Ty.errT], fun _ => [vT2, Val.errV none]⟩

/-- `A → Optional[B]`, one half of a cycle through an Optional output
(claim C6). -/
def fc6 : Fn :=
  ⟨"fc6", [tA], [Ty.opt tB, Ty.errT], fun _ => [Val.optS tB vB, Val.errV none]⟩

/-- `B → A`, the other half of the cycle (claim C6). -/
def gc6 : Fn := ⟨"gc6", [tB], [tA, Ty.errT], fun _ => [vA, Val.errV none]⟩

/-- `Optional[A] → B`: cycle half with Optional wrapping on the input side
(claim C6 witness). -/
def f6w : Fn := ⟨"f6w", [Ty.opt tA], [tB, Ty.errT], fun _ => [vB, Val.errV none]⟩

/-- `Optional[B] → A`: the other half (claim C6 witness). -/
def g6w : Fn := ⟨"g6w", [Ty.opt tB], [tA, Ty.errT], fun _ => [vA, Val.errV none]⟩

/-- `A → B` (claim C7 witness): skipped because `A` is never provided. -/
def w7B : Fn := ⟨"w7B", [tA], [tB, Ty.errT], fun _ => [vB, Val.errV none]⟩

/-- `B → C` (claim C7 witness): transitively skipped. -/
def w7C : Fn := ⟨"w7C", [tB], [tC, Ty.errT], fun _ => [vC, Val.errV none]⟩

/-- `A → (B, error)` whose body reports the error `"boom"` (claim C8
witness). -/
def w8f : Fn :=
  ⟨"w8f", [tA], [tB, Ty.errT], fun _ => [vB, Val.errV (some "boom")]⟩

/-- The engine `Initialize [w8f]` builds. -/
def e8 : Engine := ⟨[w8f], [tB], true⟩

/-! ## The claims as stated (instantiated for their counterexamples) -/

/-- Claim C1 as stated, instantiated: the engine of scenario 3 of the spec
can be built, and when a function's `Optional[B]` output is returned with
`IsSet = true`, the executor stores the unwrapped bare value under `B`. -/
def claimC1 : Prop :=
  (∃ e, Initialize [mkBoptUnset, mkC1] = Except.ok e) ∧
  storeGet ((runTask [Ty.opt tB, tC] ⟨seedStore [vA], [], [], none⟩ mkBopt).store) tB
    = some vB

/-- Claim C2 as stated, instantiated: a provided `Optional[T]` with
`IsSet = true` is stored under the unwrapped type `T`, and a function with
a required parameter `T` runs with that value bound. -/
def claimC2 : Prop :=
  storeGet (seedStore [Val.optS tT vT]) tT = some vT ∧
  (RunFull tU e2 [Val.optS tT vT] [g2]).2.called = ["g2"]

/-- Claim C3 as stated, instantiated: a successful `Run` returns exactly
the stored values whose *unwrapped* type lies in `engine.produced` and
which convert to the result type. -/
def claimC3 : Prop :=
  Run (Ty.opt tT) e3 [vA, Val.optS tT vT2] [f3]
    = Except.ok
        (((runTasks [tT] [f3] ⟨seedStore [vA, Val.optS tT vT2], [], [], none⟩).store.filter
            (fun p => [tT].contains (unwrapOptional (tyOf p.2)).1)).filterMap
          (fun p => convert (Ty.opt tT) p.2))

/-- Claim C4 as stated, instantiated: `Run` fails with "duplicate provided
input type" when a `T` and an `Optional[T]` are both provided (same
unwrapped type), and fails with "provided input type matches function
output type" when an `Optional[U]` is provided while `U` is produced. -/
def claimC4 : Prop :=
  Run tU e2 [vT, Val.optS tT vT] [g2]
    = Except.error ("duplicate provided input type: " ++ tyStr tT) ∧
  Run tU e2 [Val.optS tU vU] [g2]
    = Except.error ("provided input type matches function output type: " ++ tyStr tU)

/-- Claim C5 as stated, instantiated: registering a producer of `T` and a
producer of `Optional[T]` fails with a validation error naming both
offending functions. -/
def claimC5 : Prop :=
  ∃ m, Initialize [f5T, f5O] = Except.error m ∧ strHas m "funcF" ∧ strHas m "funcG"

/-- Claim C6 as stated, instantiated: a dependency cycle whose edge is
wrapped in `Optional` on the output side still fails with an error
containing "cyclic dependency detected". -/
def claimC6 : Prop :=
  ∃ m, Initialize [fc6, gc6] = Except.error m ∧ strHas m "cyclic dependency detected"

/-! ## Generic helper lemmas -/

theorem subL_nil_needle : ∀ hay : List Char, subL hay [] = true
  | [] => rfl
  | _ :: _ => rfl

theorem startsL_append (pre : List Char) : ∀ post, startsL (pre ++ post) pre = true := by
  induction pre with
  | nil => intro post; cases post <;> rfl
  | cons a as ih => intro post; simpa [startsL] using ih post

theorem subL_of_append (pre mid post : List Char) :
    subL (pre ++ (mid ++ post)) mid = true := by
  induction pre with
  | nil =>
    cases mid with
    | nil => exact subL_nil_needle post
    | cons b bs =>
      have h := startsL_append (b :: bs) post
      simp only [List.nil_append, List.cons_append, subL, List.append_eq]
      simp only [List.cons_append] at h
      rw [h]
      rfl
  | cons a as ih =>
    simp only [List.cons_append, subL, List.append_eq]
    rw [ih]
    exact Bool.or_true _

/-- A decomposition witness gives `strHas`. -/
theorem strHas_of_eq (hay pre needle post : String)
    (h : hay = pre ++ (needle ++ post)) : strHas hay needle := by
  subst h
  show subL (pre ++ (needle ++ post)).data needle.data = true
  have hd : (pre ++ (needle ++ post)).data = pre.data ++ (needle.data ++ post.data) := by
    simp
  rw [hd]
  exact subL_of_append _ _ _

theorem findSome?_eq_some_of_mem {α β : Type} {l : List α} {k : α → Option β} {x : α} {e : β}
    (hx : x ∈ l) (hk : k x = some e) : ∃ e2, l.findSome? k = some e2 := by
  induction l with
  | nil => cases hx
  | cons a t ih =>
    cases ha : k a with
    | some b =>
      exact ⟨b, by rw [List.findSome?_cons_of_isSome _ (by simp [ha])]; exact ha⟩
    | none =>
      rcases List.mem_cons.mp hx with h | h
      · subst h; rw [ha] at hk; cases hk
      · obtain ⟨e2, he2⟩ := ih h
        exact ⟨e2, by rw [List.findSome?_cons_of_isNone _ (by simp [ha])]; exact he2⟩

/-! ## Store lemmas -/

theorem storeGet_storeSet (s : Store) (k k2 : Ty) (v : Val) :
    storeGet (storeSet s k v) k2 = if k2 = k then some v else storeGet s k2 := by
  induction s with
  | nil =>
    by_cases h : k2 = k <;> simp [storeSet, storeGet, h, eq_comm]
  | cons p t ih =>
    by_cases hp : p.1 = k
    · rw [show storeSet (p :: t) k v = (k, v) :: t from by simp [storeSet, hp]]
      by_cases h : k2 = k
      · simp [storeGet, h]
      · simp only [storeGet, List.find?_cons]
        have h1 : (decide ((k, v).1 = k2)) = false := by simpa using fun hh => h hh.symm
        have h2 : (decide (p.1 = k2)) = false := by
          simpa using fun hh => h (by rw [← hh, hp])
        rw [h1, h2]
        simp [h]
    · rw [show storeSet (p :: t) k v = p :: storeSet t k v from by simp [storeSet, hp]]
      by_cases hp2 : p.1 = k2
      · have h : ¬ k2 = k := fun hh => hp (by rw [hp2, hh])
        simp [storeGet, List.find?_cons, hp2, h]
      · simp only [storeGet, List.find?_cons]
        have h2 : (decide (p.1 = k2)) = false := by simpa using hp2
        rw [h2]
        by_cases h : k2 = k
        · simpa [storeGet, h] using ih
        · simpa [storeGet, h, h2] using ih

theorem storeGet_storeSet_self (s : Store) (k : Ty) (v : Val) :
    storeGet (storeSet s k v) k = some v := by
  simp [storeGet_storeSet]

theorem storeGet_storeSet_ne (s : Store) (k k2 : Ty) (v : Val) (h : k2 ≠ k) :
    storeGet (storeSet s k v) k2 = storeGet s k2 := by
  simp [storeGet_storeSet, h]

theorem unwrapOptional_nonopt {t : Ty} (h : isOptionalT t = false) :
    unwrapOptional t = (t, false) := by
  cases t <;> first
    | rfl
    | exact absurd h (by simp [isOptionalT, unwrapOptional])

theorem loadValue_nonopt (s : Store) {t : Ty} (h : isOptionalT t = false) :
    loadValue s t = storeGet s t := by
  rw [loadValue, unwrapOptional_nonopt h]
  cases hs : storeGet s t <;> simp [hs]

theorem loadValue_opt_none (s : Store) (u : Ty) (h : storeGet s u = none) :
    loadValue s (Ty.opt u) = some (Val.optN u) := by
  simp [loadValue, unwrapOptional, h]

theorem loadValue_opt_some (s : Store) (u : Ty) (v : Val) (h : storeGet s u = some v) :
    loadValue s (Ty.opt u) = some (Val.optS u v) := by
  simp [loadValue, unwrapOptional, h]

/-! ## Seeding lemmas -/

theorem seedGo_get_not_mem (provided : List Val) (U : Ty)
    (h : ∀ v ∈ provided, tyOf v ≠ U) :
    ∀ s0 : Store, storeGet (provided.foldl (fun s v => storeSet s (tyOf v) v) s0) U
      = storeGet s0 U := by
  induction provided with
  | nil => intro s0; rfl
  | cons w rest ih =>
    intro s0
    rw [List.foldl_cons, ih (fun v hv => h v (List.mem_cons_of_mem w hv)) _,
      storeGet_storeSet_ne _ _ _ _ (fun hh => h w (List.mem_cons_self w rest) hh.symm)]

theorem seedStore_get_not_mem (provided : List Val) (U : Ty)
    (h : ∀ v ∈ provided, tyOf v ≠ U) : storeGet (seedStore provided) U = none :=
  seedGo_get_not_mem provided U h []

theorem seedGo_get_mem (provided : List Val) (v : Val)
    (hn : (provided.map tyOf).Nodup) (hv : v ∈ provided) :
    ∀ s0 : Store, storeGet (provided.foldl (fun s w => storeSet s (tyOf w) w) s0) (tyOf v)
      = some v := by
  induction provided with
  | nil => cases hv
  | cons w rest ih =>
    intro s0
    rw [List.map_cons, List.nodup_cons] at hn
    rcases List.mem_cons.mp hv with h | h
    · subst h
      rw [List.foldl_cons,
        seedGo_get_not_mem rest (tyOf v)
          (fun u hu hh => hn.1 (hh ▸ List.mem_map_of_mem tyOf hu)) _,
        storeGet_storeSet_self]
    · rw [List.foldl_cons]
      exact ih hn.2 h _

theorem seedStore_get_mem (provided : List Val) (v : Val)
    (hn : (provided.map tyOf).Nodup) (hv : v ∈ provided) :
    storeGet (seedStore provided) (tyOf v) = some v :=
  seedGo_get_mem provided v hn hv []

/-! ## storeOutputs lemmas -/

theorem storePairs_get_not_mem (U : Ty) :
    ∀ (pairs : List (Ty × Val)) (s : Store),
      (∀ p ∈ pairs, p.1 = Ty.errT ∨ p.1 ≠ U) →
      storeGet (pairs.foldl
        (fun acc p => if p.1 = Ty.errT then acc else storeSet acc p.1 p.2) s) U
        = storeGet s U := by
  intro pairs
  induction pairs with
  | nil => intro s _; rfl
  | cons q rest ih =>
    intro s h
    rw [List.foldl_cons, ih _ (fun p hp => h p (List.mem_cons_of_mem q hp))]
    by_cases hq : q.1 = Ty.errT
    · rw [if_pos hq]
    · rcases h q (List.mem_cons_self q rest) with h2 | h2
      · exact absurd h2 hq
      · rw [if_neg hq, storeGet_storeSet_ne _ _ _ _ (fun hh => h2 hh.symm)]

theorem storeOutputs_get_not_mem (s : Store) (outVals : List Val) (outs : List Ty)
    (U : Ty) (h : U ∉ outs) :
    storeGet (storeOutputs s outVals outs) U = storeGet s U := by
  apply storePairs_get_not_mem
  intro p hp
  exact Or.inr fun hh => h (hh ▸ (List.of_mem_zip hp).1)

theorem map_fst_zip_sublist {α β : Type} :
    ∀ (l : List α) (l2 : List β), ((l.zip l2).map Prod.fst).Sublist l := by
  intro l
  induction l with
  | nil => intro l2; simp
  | cons a t ih =>
    intro l2
    cases l2 with
    | nil => simp
    | cons b t2 =>
      simpa using List.Sublist.cons₂ a (ih t2)

theorem storePairs_get_mem {t : Ty} {v : Val} :
    ∀ (pairs : List (Ty × Val)) (s : Store), (pairs.map Prod.fst).Nodup →
      (t, v) ∈ pairs → t ≠ Ty.errT →
      storeGet (pairs.foldl
        (fun acc p => if p.1 = Ty.errT then acc else storeSet acc p.1 p.2) s) t
        = some v := by
  intro pairs
  induction pairs with
  | nil => intro s _ hm; cases hm
  | cons q rest ih =>
    intro s hn hm ht
    rw [List.map_cons, List.nodup_cons] at hn
    rcases List.mem_cons.mp hm with h | h
    · subst h
      rw [List.foldl_cons, if_neg ht,
        storePairs_get_not_mem _ _ _
          (fun p hp => Or.inr fun hh => hn.1 (by
            have hmm : p.1 ∈ List.map Prod.fst rest := List.mem_map_of_mem Prod.fst hp
            rw [hh] at hmm
            simpa using hmm)),
        storeGet_storeSet_self]
    · rw [List.foldl_cons]
      exact ih _ hn.2 h ht

theorem storeOutputs_get_mem (s : Store) (outVals : List Val) (outs : List Ty)
    {t : Ty} {v : Val} (hn : outs.Nodup) (hm : (t, v) ∈ outs.zip outVals)
    (ht : t ≠ Ty.errT) : storeGet (storeOutputs s outVals outs) t = some v :=
  storePairs_get_mem _ s ((map_fst_zip_sublist outs outVals).nodup hn) hm ht

/-! ## Input-resolution lemmas -/

theorem resolveGo_no_abort (notif : List Ty) (s : Store) (cp : Option Nat) :
    ∀ (rest : List Ty) (i : Nat) (acc : List Val),
      resolveGo false notif s cp i rest acc ≠ .aborted := by
  intro rest
  induction rest with
  | nil => intro i acc h; cases h
  | cons inT rest2 ih =>
    intro i acc h
    rw [resolveGo] at h
    by_cases hc : cp = some i
    · rw [if_pos hc] at h; exact ih _ _ h
    · rw [if_neg hc] at h
      simp only [Bool.and_false, Bool.false_eq_true, if_false] at h
      cases hl : loadValue s inT with
      | none => rw [hl] at h; cases h
      | some v => rw [hl] at h; exact ih _ _ h

theorem resolveGo_skips (notif : List Ty) (s : Store) (cp : Option Nat) :
    ∀ (rest : List Ty) (i : Nat) (acc : List Val),
      (∃ V ∈ requiredTysGo cp i rest, storeGet s V = none) →
      resolveGo false notif s cp i rest acc = .skipped := by
  intro rest
  induction rest with
  | nil => intro i acc h; obtain ⟨V, hV, -⟩ := h; cases hV
  | cons inT rest2 ih =>
    intro i acc h
    rw [resolveGo]
    by_cases hc : cp = some i
    · rw [if_pos hc]
      rw [requiredTysGo, if_pos hc] at h
      exact ih _ _ h
    · rw [if_neg hc]
      simp only [Bool.and_false, Bool.false_eq_true, if_false]
      rw [requiredTysGo, if_neg hc] at h
      by_cases ho : isOptionalT inT
      · rw [if_pos ho] at h
        cases hl : loadValue s inT with
        | none => rfl
        | some v => exact ih _ _ h
      · rw [if_neg ho] at h
        obtain ⟨V, hV, hget⟩ := h
        rcases List.mem_cons.mp hV with hV1 | hV1
        · subst hV1
          rw [loadValue_nonopt s (by simpa using ho), hget]
        · cases hl : loadValue s inT with
          | none => rfl
          | some v => exact ih _ _ ⟨V, hV1, hget⟩

theorem resolveGo_ok_required (notif : List Ty) (s : Store) (cp : Option Nat)
    (c : Bool) :
    ∀ (rest : List Ty) (i : Nat) (acc args : List Val),
      resolveGo c notif s cp i rest acc = .ok args →
      ∀ V ∈ requiredTysGo cp i rest, ∃ w, storeGet s V = some w := by
  intro rest
  induction rest with
  | nil => intro i acc args _ V hV; cases hV
  | cons inT rest2 ih =>
    intro i acc args h V hV
    rw [resolveGo] at h
    by_cases hc : cp = some i
    · rw [if_pos hc] at h
      rw [requiredTysGo, if_pos hc] at hV
      exact ih _ _ _ h V hV
    · rw [if_neg hc] at h
      rw [requiredTysGo, if_neg hc] at hV
      by_cases hw : notif.contains (unwrapOptional inT).1 && c
      · rw [if_pos hw] at h; cases h
      · rw [if_neg hw] at h
        by_cases ho : isOptionalT inT
        · rw [if_pos ho] at hV
          cases hl : loadValue s inT with
          | none => rw [hl] at h; cases h
          | some v => rw [hl] at h; exact ih _ _ _ h V hV
        · rw [if_neg ho] at hV
          cases hl : loadValue s inT with
          | none => rw [hl] at h; cases h
          | some v =>
            rw [hl] at h
            rcases List.mem_cons.mp hV with hV1 | hV1
            · subst hV1
              rw [loadValue_nonopt s (by simpa using ho)] at hl
              exact ⟨v, hl⟩
            · exact ih _ _ _ h V hV1

/-! ## Task-step lemmas -/

theorem runTask_of_aborted {notif : List Ty} {st : RState} {f : Fn}
    (h : resolveIns st.firstErr.isSome notif st.store f = .aborted) :
    runTask notif st f = st := by
  rw [runTask, h]

theorem runTask_of_skipped {notif : List Ty} {st : RState} {f : Fn}
    (h : resolveIns st.firstErr.isSome notif st.store f = .skipped) :
    runTask notif st f = { st with closed := st.closed ++ nonErrOuts f } := by
  rw [runTask, h]

theorem runTask_firstErr_some {notif : List Ty} {st : RState} {f : Fn} {e : String}
    (h : st.firstErr = some e) : (runTask notif st f).firstErr = some e := by
  rw [runTask]
  cases hres : resolveIns st.firstErr.isSome notif st.store f with
  | aborted => exact h
  | skipped => exact h
  | ok args =>
    cases hge : getError (f.body args) (errPos f) with
    | some e2 => simp only [hge]; simp [h]
    | none => simp only [hge]; exact h

theorem runTasks_firstErr_some {notif : List Ty} {e : String} :
    ∀ (sched : List Fn) (st : RState), st.firstErr = some e →
      (runTasks notif sched st).firstErr = some e := by
  intro sched
  induction sched with
  | nil => intro st h; exact h
  | cons f rest ih =>
    intro st h
    rw [runTasks, List.foldl_cons]
    exact ih _ (runTask_firstErr_some h)

theorem runTasks_append (notif : List Ty) (l1 l2 : List Fn) (st : RState) :
    runTasks notif (l1 ++ l2) st = runTasks notif l2 (runTasks notif l1 st) := by
  simp [runTasks, List.foldl_append]

theorem runTasks_firstErr_none_prefix {notif : List Ty} {l1 l2 : List Fn} {st : RState}
    (h : (runTasks notif (l1 ++ l2) st).firstErr = none) :
    (runTasks notif l1 st).firstErr = none := by
  cases he : (runTasks notif l1 st).firstErr with
  | none => rfl
  | some e =>
    rw [runTasks_append] at h
    rw [runTasks_firstErr_some l2 _ he] at h
    cases h

theorem runTask_called_sub {notif : List Ty} {st : RState} {f : Fn} {n : String}
    (h : n ∈ (runTask notif st f).called) : n ∈ st.called ∨ n = f.name := by
  rw [runTask] at h
  cases hres : resolveIns st.firstErr.isSome notif st.store f with
  | aborted => rw [hres] at h; exact Or.inl h
  | skipped => rw [hres] at h; exact Or.inl h
  | ok args =>
    rw [hres] at h
    cases hge : getError (f.body args) (errPos f) with
    | some e2 =>
      simp only [hge] at h
      simp only [List.mem_append, List.mem_singleton] at h
      exact h
    | none =>
      simp only [hge] at h
      simp only [List.mem_append, List.mem_singleton] at h
      exact h

theorem runTask_closed_decomp (notif : List Ty) (st : RState) (f : Fn) :
    (runTask notif st f).closed = st.closed ∨
      (runTask notif st f).closed = st.closed ++ nonErrOuts f := by
  rw [runTask]
  cases hres : resolveIns st.firstErr.isSome notif st.store f with
  | aborted => exact Or.inl rfl
  | skipped => exact Or.inr rfl
  | ok args =>
    cases hge : getError (f.body args) (errPos f) with
    | some e2 => simp only [hge]; exact Or.inl trivial
    | none => simp only [hge]; exact Or.inr trivial

theorem runTask_store_decomp (notif : List Ty) (st : RState) (f : Fn) :
    (runTask notif st f).store = st.store ∨
      ∃ args, resolveIns st.firstErr.isSome notif st.store f = .ok args ∧
        (runTask notif st f).store = storeOutputs st.store (f.body args) f.outs := by
  rw [runTask]
  cases hres : resolveIns st.firstErr.isSome notif st.store f with
  | aborted => exact Or.inl rfl
  | skipped => exact Or.inl rfl
  | ok args =>
    cases hge : getError (f.body args) (errPos f) with
    | some e2 => simp only [hge]; exact Or.inl trivial
    | none => simp only [hge]; exact Or.inr ⟨args, rfl, rfl⟩

/-- A task that finishes with no error present before or after it behaves as
a completed task: it closes exactly its non-error outputs. -/
theorem runTask_closed_complete {notif : List Ty} {st : RState} {f : Fn}
    (h0 : st.firstErr = none) (h1 : (runTask notif st f).firstErr = none) :
    (runTask notif st f).closed = st.closed ++ nonErrOuts f := by
  rw [runTask] at h1 ⊢
  rw [h0] at h1 ⊢
  simp only [Option.isSome_none] at h1 ⊢
  cases hres : resolveIns false notif st.store f with
  | aborted =>
    exact absurd hres (resolveGo_no_abort notif st.store (ctxPos f) f.ins 0 [])
  | skipped => rfl
  | ok args =>
    rw [hres] at h1
    cases hge : getError (f.body args) (errPos f) with
    | some e2 => simp [hge] at h1
    | none => simp only [hge]

/-- In a run that finishes without error, the close events are exactly the
non-error outputs of the scheduled functions, in schedule order. -/
theorem runTasks_closed_complete {notif : List Ty} :
    ∀ (sched : List Fn) (st : RState),
      (runTasks notif sched st).firstErr = none →
      (runTasks notif sched st).closed = st.closed ++ (sched.map nonErrOuts).flatten := by
  intro sched
  induction sched with
  | nil => intro st _; simp [runTasks]
  | cons f rest ih =>
    intro st h
    have hstep : runTasks notif (f :: rest) st = runTasks notif rest (runTask notif st f) := by
      simp [runTasks]
    rw [hstep] at h ⊢
    have h1 : (runTask notif st f).firstErr = none := by
      cases he : (runTask notif st f).firstErr with
      | none => rfl
      | some e => rw [runTasks_firstErr_some rest _ he] at h; cases h
    have h0 : st.firstErr = none := by
      cases he : st.firstErr with
      | none => rfl
      | some e => rw [runTask_firstErr_some he] at h1; cases h1
    rw [ih _ h, runTask_closed_complete h0 h1]
    simp

theorem runTasks_closed_sublist {notif : List Ty} :
    ∀ (sched : List Fn) (st : RState),
      ∃ d, (runTasks notif sched st).closed = st.closed ++ d ∧
        d.Sublist ((sched.map nonErrOuts).flatten) := by
  intro sched
  induction sched with
  | nil => intro st; exact ⟨[], by simp [runTasks], by simp⟩
  | cons f rest ih =>
    intro st
    have hstep : runTasks notif (f :: rest) st = runTasks notif rest (runTask notif st f) := by
      simp [runTasks]
    obtain ⟨d2, hd2, hsub2⟩ := ih (runTask notif st f)
    rcases runTask_closed_decomp notif st f with h1 | h1
    · refine ⟨d2, by rw [hstep, hd2, h1], ?_⟩
      simp only [List.map_cons, List.flatten_cons]
      exact hsub2.trans (List.sublist_append_right _ _)
    · refine ⟨nonErrOuts f ++ d2, by rw [hstep, hd2, h1, List.append_assoc], ?_⟩
      simp only [List.map_cons, List.flatten_cons]
      exact List.Sublist.append (List.Sublist.refl _) hsub2

theorem runTasks_called_from {notif : List Ty} :
    ∀ (sched : List Fn) (st : RState) (n : String),
      n ∈ (runTasks notif sched st).called →
      n ∈ st.called ∨ ∃ f ∈ sched, f.name = n := by
  intro sched
  induction sched with
  | nil => intro st n h; exact Or.inl h
  | cons f rest ih =>
    intro st n h
    have hstep : runTasks notif (f :: rest) st = runTasks notif rest (runTask notif st f) := by
      simp [runTasks]
    rw [hstep] at h
    rcases ih _ n h with h2 | ⟨g, hg, hn⟩
    · rcases runTask_called_sub h2 with h3 | h3
      · exact Or.inl h3
      · exact Or.inr ⟨f, List.mem_cons_self f rest, h3.symm⟩
    · exact Or.inr ⟨g, List.mem_cons_of_mem f hg, hn⟩

theorem runTasks_store_preserved {notif : List Ty} {U : Ty} :
    ∀ (sched : List Fn) (st : RState), (∀ f ∈ sched, U ∉ nonErrOuts f) →
      storeGet (runTasks notif sched st).store U = storeGet st.store U := by
  intro sched
  induction sched with
  | nil => intro st _; rfl
  | cons f rest ih =>
    intro st h
    have hstep : runTasks notif (f :: rest) st = runTasks notif rest (runTask notif st f) := by
      simp [runTasks]
    rw [hstep, ih _ (fun g hg => h g (List.mem_cons_of_mem f hg))]
    rcases runTask_store_decomp notif st f with h1 | ⟨args, -, h1⟩
    · rw [h1]
    · rw [h1]
      apply storePairs_get_not_mem
      intro p hp
      have h2 := List.of_mem_zip hp
      by_cases he : p.1 = Ty.errT
      · exact Or.inl he
      · refine Or.inr fun hh => h f (List.mem_cons_self f rest) ?_
        rw [← hh]
        exact List.mem_filter.mpr ⟨h2.1, by simpa using he⟩

theorem runTask_of_ok_err {notif : List Ty} {st : RState} {f : Fn} {args : List Val}
    {e : String} (h0 : st.firstErr = none)
    (hres : resolveIns false notif st.store f = .ok args)
    (hge : getError (f.body args) (errPos f) = some e) :
    runTask notif st f
      = { st with called := st.called ++ [f.name], firstErr := some e } := by
  rw [runTask, h0]
  simp only [Option.isSome_none]
  rw [hres]
  simp only [hge]
  rfl

theorem runTask_of_ok_success {notif : List Ty} {st : RState} {f : Fn} {args : List Val}
    (hres : resolveIns st.firstErr.isSome notif st.store f = .ok args)
    (hge : getError (f.body args) (errPos f) = none) :
    runTask notif st f
      = { st with called := st.called ++ [f.name],
                  store := storeOutputs st.store (f.body args) f.outs,
                  closed := st.closed ++ nonErrOuts f } := by
  rw [runTask, hres]
  simp only [hge]

/-! ## Absent types never enter the store -/

theorem Absent_not_provided {prov : List Ty} {fns : List Fn} {U : Ty}
    (h : Absent prov fns U) : U ∉ prov := by
  obtain ⟨n, hn⟩ := h
  cases n with
  | zero => cases hn
  | succ m =>
    rw [absentB] at hn
    simp only [Bool.and_eq_true, Bool.not_eq_true'] at hn
    intro hmem
    have hc : prov.contains U = true := List.elem_iff.mpr hmem
    rw [hc] at hn
    cases hn.1

theorem Absent_producer_blocked {prov : List Ty} {fns : List Fn} {U : Ty}
    (h : Absent prov fns U) :
    ∀ f ∈ fns, U ∈ nonErrOuts f → ∃ V ∈ requiredTys f, Absent prov fns V := by
  obtain ⟨n, hn⟩ := h
  cases n with
  | zero => cases hn
  | succ m =>
    rw [absentB] at hn
    simp only [Bool.and_eq_true, Bool.not_eq_true', List.all_eq_true] at hn
    intro f hf hout
    have h2 := hn.2 f hf
    have hc : (nonErrOuts f).contains U = true := List.elem_iff.mpr hout
    rw [hc] at h2
    simp only [Bool.not_true, Bool.false_or, List.any_eq_true] at h2
    obtain ⟨V, hV, hb⟩ := h2
    exact ⟨V, hV, m, hb⟩

/-- Invariant: along a run, a type that is `Absent` never appears in the
store.  (A task only stores values after successfully resolving every
required input; a producer of an absent type has an absent — hence missing —
required input, so it can never resolve.) -/
theorem runTask_absent_invariant {notif : List Ty} {prov : List Ty} {fns : List Fn}
    {st : RState} {f : Fn} (hf : f ∈ fns)
    (hP : ∀ U, Absent prov fns U → storeGet st.store U = none) :
    ∀ U, Absent prov fns U → storeGet (runTask notif st f).store U = none := by
  intro U hU
  rcases runTask_store_decomp notif st f with h1 | ⟨args, hres, h1⟩
  · rw [h1]; exact hP U hU
  · rw [h1]
    by_cases hout : U ∈ nonErrOuts f
    · obtain ⟨V, hV, hAV⟩ := Absent_producer_blocked hU f hf hout
      have hnone := hP V hAV
      have := resolveGo_ok_required notif st.store (ctxPos f) st.firstErr.isSome
        f.ins 0 [] args hres V hV
      obtain ⟨w, hw⟩ := this
      rw [hw] at hnone
      cases hnone
    · have hskip : storeGet (storeOutputs st.store (f.body args) f.outs) U
          = storeGet st.store U := by
        apply storePairs_get_not_mem
        intro p hp
        by_cases he : p.1 = Ty.errT
        · exact Or.inl he
        · refine Or.inr fun hh => hout ?_
          rw [← hh]
          exact List.mem_filter.mpr ⟨(List.of_mem_zip hp).1, by simpa using he⟩
      rw [hskip]
      exact hP U hU

theorem runTasks_absent_invariant {notif : List Ty} {prov : List Ty} {fns : List Fn} :
    ∀ (sched : List Fn) (st : RState), (∀ f ∈ sched, f ∈ fns) →
      (∀ U, Absent prov fns U → storeGet st.store U = none) →
      ∀ U, Absent prov fns U → storeGet (runTasks notif sched st).store U = none := by
  intro sched
  induction sched with
  | nil => intro st _ hP; exact hP
  | cons f rest ih =>
    intro st hmem hP
    have hstep : runTasks notif (f :: rest) st = runTasks notif rest (runTask notif st f) := by
      simp [runTasks]
    rw [hstep]
    exact ih _ (fun g hg => hmem g (List.mem_cons_of_mem f hg))
      (runTask_absent_invariant (hmem f (List.mem_cons_self f rest)) hP)

end Warp

namespace Warp

theorem name_not_in_sides {pre post : List Fn} {g : Fn}
    (hnames : ((pre ++ g :: post).map Fn.name).Nodup) :
    (∀ f ∈ pre, f.name ≠ g.name) ∧ (∀ f ∈ post, f.name ≠ g.name) := by
  rw [List.map_append, List.map_cons] at hnames
  obtain ⟨hn1, hn2, hdisj⟩ := List.nodup_append.mp hnames
  constructor
  · intro f hf hfn
    exact hdisj (hfn ▸ List.mem_map_of_mem Fn.name hf)
      (List.mem_cons_self _ _)
  · intro f hf hfn
    exact (List.nodup_cons.mp hn2).1 (hfn ▸ List.mem_map_of_mem Fn.name hf)

/-- **C7.** During any `Run`, a function with a required (non-context,
non-`Optional`) parameter whose unwrapped type holds no value in the store
once its readiness signal has fired never calls its user code, still
broadcasts readiness on every one of its non-error output types without
storing any value, and reports no error; consequently every transitive
consumer that requires one of the absent types (`Absent`) is likewise
skipped: it is never called and its outputs are broadcast, and the absent
types never appear in the final store. -/
theorem C7_skip_protocol
    (notif : List Ty) (sched : List Fn) (provided : List Val)
    (hsig : ScheduleOK sched)
    (hnames : (sched.map Fn.name).Nodup) :
    (∀ pre g post, sched = pre ++ g :: post →
      (runTasks notif pre ⟨seedStore provided, [], [], none⟩).firstErr = none →
      (∃ V ∈ requiredTys g,
        storeGet (runTasks notif pre ⟨seedStore provided, [], [], none⟩).store V = none) →
      runTask notif (runTasks notif pre ⟨seedStore provided, [], [], none⟩) g
        = { runTasks notif pre ⟨seedStore provided, [], [], none⟩ with
            closed := (runTasks notif pre ⟨seedStore provided, [], [], none⟩).closed
              ++ nonErrOuts g }) ∧
    ((runTasks notif sched ⟨seedStore provided, [], [], none⟩).firstErr = none →
      ∀ g ∈ sched, (∃ V ∈ requiredTys g, Absent (provided.map tyOf) sched V) →
        g.name ∉ (runTasks notif sched ⟨seedStore provided, [], [], none⟩).called ∧
        (∀ W ∈ nonErrOuts g,
          W ∈ (runTasks notif sched ⟨seedStore provided, [], [], none⟩).closed) ∧
        (∀ V ∈ requiredTys g, Absent (provided.map tyOf) sched V →
          storeGet (runTasks notif sched ⟨seedStore provided, [], [], none⟩).store V
            = none)) := by
  constructor
  · intro pre g post hsp hpre hmiss
    have hskip : resolveIns
        (runTasks notif pre ⟨seedStore provided, [], [], none⟩).firstErr.isSome notif
        (runTasks notif pre ⟨seedStore provided, [], [], none⟩).store g = .skipped := by
      rw [hpre]
      exact resolveGo_skips notif _ (ctxPos g) g.ins 0 [] hmiss
    exact runTask_of_skipped hskip
  · intro hnoerr g hg hskipped
    obtain ⟨pre, post, hsp⟩ := List.append_of_mem hg
    subst hsp
    have hseedP : ∀ U, Absent (provided.map tyOf) (pre ++ g :: post) U →
        storeGet (seedStore provided) U = none := by
      intro U hU
      apply seedStore_get_not_mem
      intro v hv hh
      exact Absent_not_provided hU (hh ▸ List.mem_map_of_mem tyOf hv)
    have hPpre : ∀ U, Absent (provided.map tyOf) (pre ++ g :: post) U →
        storeGet (runTasks notif pre ⟨seedStore provided, [], [], none⟩).store U = none :=
      runTasks_absent_invariant pre _
        (fun f hf => List.mem_append.mpr (Or.inl hf)) hseedP
    have hpre : (runTasks notif pre ⟨seedStore provided, [], [], none⟩).firstErr = none :=
      runTasks_firstErr_none_prefix hnoerr
    have hmiss : ∃ V ∈ requiredTys g,
        storeGet (runTasks notif pre ⟨seedStore provided, [], [], none⟩).store V = none := by
      obtain ⟨V, hV, hAV⟩ := hskipped
      exact ⟨V, hV, hPpre V hAV⟩
    have hskip : resolveIns
        (runTasks notif pre ⟨seedStore provided, [], [], none⟩).firstErr.isSome notif
        (runTasks notif pre ⟨seedStore provided, [], [], none⟩).store g = .skipped := by
      rw [hpre]
      exact resolveGo_skips notif _ (ctxPos g) g.ins 0 [] hmiss
    have hG := @runTask_of_skipped notif _ _ hskip
    have hfinal : runTasks notif (pre ++ g :: post) ⟨seedStore provided, [], [], none⟩
        = runTasks notif post
            (runTask notif (runTasks notif pre ⟨seedStore provided, [], [], none⟩) g) := by
      rw [runTasks_append]
      simp [runTasks]
    have hsides := name_not_in_sides hnames
    refine ⟨?_, ?_, ?_⟩
    · intro hcall
      rw [hfinal] at hcall
      rcases runTasks_called_from post _ g.name hcall with h1 | ⟨f, hf, hfn⟩
      · rw [hG] at h1
        rcases runTasks_called_from pre _ g.name h1 with h2 | ⟨f, hf, hfn⟩
        · cases h2
        · exact hsides.1 f hf hfn
      · exact hsides.2 f hf hfn
    · intro W hW
      rw [hfinal]
      obtain ⟨d, hd, -⟩ := runTasks_closed_sublist post
        (runTask notif (runTasks notif pre ⟨seedStore provided, [], [], none⟩) g)
      rw [hd, hG]
      exact List.mem_append.mpr (Or.inl (List.mem_append.mpr (Or.inr hW)))
    · intro V hV hAV
      exact runTasks_absent_invariant (pre ++ g :: post) _ (fun f hf => hf) hseedP V hAV

end Warp

namespace Warp

/-- `validateNoOutputOptionalTypes` fires on a function with an `Optional`
output, so the whole per-function pass fails for it. -/
theorem validateFn_some_of_optional_out {f : Fn}
    (hopt : ∃ outT ∈ f.outs, isOptionalT outT = true) :
    ∃ m, validateFn f = some m := by
  obtain ⟨o, ho, hoo⟩ := hopt
  have h1 : ∃ m1, validateNoOutputOptionalTypes f = some m1 := by
    rcases hx : validateNoOutputOptionalTypes f with _ | m1
    · rw [validateNoOutputOptionalTypes, List.findSome?_eq_none_iff] at hx
      have h := hx o ho
      rw [if_pos hoo] at h
      cases h
    · exact ⟨m1, rfl⟩
  obtain ⟨m1, hm1⟩ := h1
  rcases hx : validateFn f with _ | m2
  · rw [validateFn, List.findSome?_eq_none_iff] at hx
    have hv := hx validateNoOutputOptionalTypes (by simp [perFnValidators])
    rw [hm1] at hv
    cases hv
  · exact ⟨m2, rfl⟩

/-- A function set containing any failing function makes `Initialize`
return a validation error. -/
theorem Initialize_error_of_validateFn {fns : List Fn} {f : Fn} (hf : f ∈ fns)
    (hfv : ∃ m, validateFn f = some m) : ∃ m, Initialize fns = Except.error m := by
  obtain ⟨m2, hm2⟩ := hfv
  obtain ⟨m3, hm3⟩ := findSome?_eq_some_of_mem (l := fns)
    (k := fun g => (validateFn g).map (wrapValidationErrorWithInput g))
    (e := wrapValidationErrorWithInput f m2) hf
    (by show (validateFn f).map (wrapValidationErrorWithInput f)
          = some (wrapValidationErrorWithInput f m2)
        rw [hm2]
        rfl)
  refine ⟨m3, ?_⟩
  rw [Initialize, if_neg ?_]
  · rw [hm3]
  · simp only [List.isEmpty_iff]
    exact List.ne_nil_of_mem hf

/-- **C1 (counterexample).** The claim is false on the code: `Initialize`
rejects the scenario's engine (its first function has an `Optional` output
type), and even running the producing task directly, the executor stores
the `Optional` value wrapped under `Optional[B]` — nothing is stored under
`B`. -/
theorem C1_counterexample : ¬ claimC1 := fun h => absurd h.2 (by decide)

/-- **C1 (amended).** `Initialize` rejects any function with an `Optional`
output type, so no built engine has an `Optional` output slot; and
`storeOutputs` stores every non-error output value unchanged under its
declared output type — it never unwraps an `Optional` output and never
skips the store. -/
theorem C1_store_raw (fns : List Fn) (f : Fn) (hf : f ∈ fns)
    (hopt : ∃ outT ∈ f.outs, isOptionalT outT = true) :
    (∃ m, Initialize fns = Except.error m) ∧
    (∀ (s : Store) (outs : List Ty) (vals : List Val) (t : Ty) (v : Val),
      outs.Nodup → (t, v) ∈ outs.zip vals → t ≠ Ty.errT →
      storeGet (storeOutputs s vals outs) t = some v) :=
  ⟨Initialize_error_of_validateFn hf (validateFn_some_of_optional_out hopt),
   fun s outs vals t v hn hm ht => storeOutputs_get_mem s vals outs hn hm ht⟩

/-- Witness for C1: at the concrete producer `mkBopt` the rejection and the
raw (wrapped) store are both observable. -/
theorem C1_store_raw_witness :
    (∃ m, Initialize [mkBopt] = Except.error m) ∧
    storeGet (storeOutputs [] [Val.optS tB vB, Val.errV none] [Ty.opt tB, Ty.errT])
      (Ty.opt tB) = some (Val.optS tB vB) := by
  have h := C1_store_raw [mkBopt] mkBopt (List.mem_cons_self _ _)
    ⟨Ty.opt tB, by decide, rfl⟩
  exact ⟨h.1, h.2 [] [Ty.opt tB, Ty.errT] [Val.optS tB vB, Val.errV none]
    (Ty.opt tB) (Val.optS tB vB) (by decide) (by decide) (by decide)⟩

/-- **C2 (counterexample).** The claim is false on the code: `Run` stores a
provided `Optional[T]` with `IsSet = true` under `Optional[T]` itself (not
under the unwrapped `T`), and a function with a required parameter `T` is
skipped, not run. -/
theorem C2_counterexample : ¬ claimC2 := fun h => absurd h.1 (by decide)

/-- **C2 (amended).** Every provided entry is stored under its own declared
(raw) type: a provided bare value of type `T` is visible unchanged to a
required consumer of `T` and wrapped (`IsSet = true`) to an `Optional[T]`
consumer, while a type no provided entry carries (such as `T` when only
`Optional[T]` was provided) resolves as absent for required consumers. -/
theorem C2_provided_raw (provided : List Val) (hn : (provided.map tyOf).Nodup)
    (v : Val) (hv : v ∈ provided) :
    storeGet (seedStore provided) (tyOf v) = some v ∧
    loadValue (seedStore provided) (Ty.opt (tyOf v)) = some (Val.optS (tyOf v) v) ∧
    (∀ u, isOptionalT u = false → (∀ w ∈ provided, tyOf w ≠ u) →
      loadValue (seedStore provided) u = none) := by
  refine ⟨seedStore_get_mem provided v hn hv,
    loadValue_opt_some _ _ _ (seedStore_get_mem provided v hn hv), ?_⟩
  intro u hu hw
  rw [loadValue_nonopt _ hu, seedStore_get_not_mem provided u hw]

/-- Witness for C2: a provided bare `T` is found under `T`, and with only
`Optional[T]` provided the required lookup of `T` is absent. -/
theorem C2_provided_raw_witness :
    storeGet (seedStore [vT]) tT = some vT ∧
    loadValue (seedStore [Val.optS tT vT]) tT = none := by
  constructor
  · exact (C2_provided_raw [vT] (by decide) vT (by decide)).1
  · exact (C2_provided_raw [Val.optS tT vT] (by decide) (Val.optS tT vT) (by decide)).2.2
      tT (by decide) (by decide)

end Warp

namespace Warp

theorem vpg_none_facts {outputs : List Ty} :
    ∀ (provided : List Val) (checked : List Ty),
      validateProvidedGo outputs checked provided = none →
      (provided.map tyOf).Nodup ∧ (∀ v ∈ provided, tyOf v ∉ outputs) ∧
      (∀ v ∈ provided, tyOf v ∉ checked) := by
  intro provided
  induction provided with
  | nil => intro checked _; exact ⟨List.nodup_nil, by simp, by simp⟩
  | cons v rest ih =>
    intro checked h
    rw [validateProvidedGo] at h
    by_cases h1 : checked.contains (tyOf v) = true
    · rw [if_pos h1] at h; cases h
    · rw [if_neg h1] at h
      by_cases h2 : outputs.contains (tyOf v) = true
      · rw [if_pos h2] at h; cases h
      · rw [if_neg h2] at h
        obtain ⟨hnd, hout, hchk⟩ := ih _ h
        refine ⟨?_, ?_, ?_⟩
        · rw [List.map_cons, List.nodup_cons]
          refine ⟨fun hmem => ?_, hnd⟩
          obtain ⟨w, hw, hww⟩ := List.mem_map.mp hmem
          have h3 := hchk w hw
          rw [hww] at h3
          exact h3 (List.mem_cons_self _ _)
        · intro w hw
          rcases List.mem_cons.mp hw with h3 | h3
          · subst h3; intro hmem; exact h2 (List.elem_iff.mpr hmem)
          · exact hout w h3
        · intro w hw
          rcases List.mem_cons.mp hw with h3 | h3
          · subst h3; intro hmem; exact h1 (List.elem_iff.mpr hmem)
          · intro hmem; exact hchk w h3 (List.mem_cons_of_mem _ hmem)

theorem vpg_dup_shape {outputs : List Ty} :
    ∀ (provided : List Val) (checked : List Ty),
      (∀ v ∈ provided, tyOf v ∉ outputs) →
      ¬ ((provided.map tyOf).Nodup ∧ ∀ v ∈ provided, tyOf v ∉ checked) →
      ∃ t, validateProvidedGo outputs checked provided
        = some ("duplicate provided input type: " ++ tyStr t) := by
  intro provided
  induction provided with
  | nil => intro checked _ hne; exact absurd ⟨List.nodup_nil, by simp⟩ hne
  | cons v rest ih =>
    intro checked hout hne
    rw [validateProvidedGo]
    by_cases h1 : checked.contains (tyOf v) = true
    · exact ⟨tyOf v, by rw [if_pos h1]⟩
    · have h2 : ¬ (outputs.contains (tyOf v) = true) := fun hc =>
        hout v (List.mem_cons_self _ _) (List.elem_iff.mp hc)
      rw [if_neg h1, if_neg h2]
      apply ih
      · exact fun w hw => hout w (List.mem_cons_of_mem _ hw)
      · intro ⟨hnd, hchk⟩
        apply hne
        constructor
        · rw [List.map_cons, List.nodup_cons]
          refine ⟨fun hmem => ?_, hnd⟩
          obtain ⟨w, hw, hww⟩ := List.mem_map.mp hmem
          have h3 := hchk w hw
          rw [hww] at h3
          exact h3 (List.mem_cons_self _ _)
        · intro w hw
          rcases List.mem_cons.mp hw with h3 | h3
          · subst h3
            exact fun hmem => h1 (List.elem_iff.mpr hmem)
          · exact fun hmem => hchk w h3 (List.mem_cons_of_mem _ hmem)

theorem vpg_match_shape {outputs : List Ty} :
    ∀ (provided : List Val) (checked : List Ty),
      (provided.map tyOf).Nodup → (∀ v ∈ provided, tyOf v ∉ checked) →
      (∃ v ∈ provided, tyOf v ∈ outputs) →
      ∃ t, t ∈ outputs ∧ validateProvidedGo outputs checked provided
        = some ("provided input type matches function output type: " ++ tyStr t) := by
  intro provided
  induction provided with
  | nil => intro checked _ _ hex; obtain ⟨v, hv, -⟩ := hex; cases hv
  | cons v rest ih =>
    intro checked hnd hchk hex
    rw [validateProvidedGo]
    have h1 : ¬ (checked.contains (tyOf v) = true) := fun hc =>
      hchk v (List.mem_cons_self _ _) (List.elem_iff.mp hc)
    rw [if_neg h1]
    by_cases h2 : outputs.contains (tyOf v) = true
    · exact ⟨tyOf v, List.elem_iff.mp h2, by rw [if_pos h2]⟩
    · rw [if_neg h2]
      rw [List.map_cons, List.nodup_cons] at hnd
      apply ih
      · exact hnd.2
      · intro w hw
        intro hmem
        rcases List.mem_cons.mp hmem with h3 | h3
        · exact hnd.1 (h3 ▸ List.mem_map_of_mem tyOf hw)
        · exact hchk w (List.mem_cons_of_mem _ hw) h3
      · obtain ⟨w, hw, hmem⟩ := hex
        rcases List.mem_cons.mp hw with h3 | h3
        · subst h3; exact absurd (List.elem_iff.mpr hmem) h2
        · exact ⟨w, h3, hmem⟩

theorem RunFull_validate_err {target : Ty} {e : Engine} {provided : List Val}
    {sched : List Fn} {m : String} (hinit : e.initialized = true)
    (hval : validateProvided provided e.outputTypes = some m) :
    RunFull target e provided sched = (Except.error m, ⟨[], [], [], none⟩) := by
  rw [RunFull, if_neg (by simp [hinit]), hval]

theorem Run_ok_inversion {target : Ty} {e : Engine} {provided : List Val}
    {sched : List Fn} {out : List Val}
    (h : Run target e provided sched = Except.ok out) :
    e.initialized = true ∧ validateProvided provided e.outputTypes = none ∧
    (runTasks e.outputTypes sched ⟨seedStore provided, [], [], none⟩).firstErr = none ∧
    out = collect target e.outputTypes
      (runTasks e.outputTypes sched ⟨seedStore provided, [], [], none⟩).store := by
  rw [Run, RunFull] at h
  cases hi : e.initialized with
  | false => rw [if_pos (by simp [hi])] at h; cases h
  | true =>
    rw [if_neg (by simp [hi])] at h
    cases hv : validateProvided provided e.outputTypes with
    | some m => rw [hv] at h; cases h
    | none =>
      rw [hv] at h
      simp only [] at h
      cases hfe : (runTasks e.outputTypes sched ⟨seedStore provided, [], [], none⟩).firstErr with
      | some m => rw [hfe] at h; cases h
      | none =>
        rw [hfe] at h
        cases h
        exact ⟨rfl, rfl, rfl, rfl⟩

/-- **C3 (counterexample).** The claim is false on the code: with a
provided `Optional[T]` value while bare `T` is produced, the claim's
description ("unwrapped type in `engine.produced`") includes the provided
`Optional[T]` value in the result, but `Run` filters by the raw stored type
and returns the empty list. -/
theorem C3_counterexample : ¬ claimC3 := by
  intro h
  unfold claimC3 at h
  exact absurd h (by decide)

/-- **C3 (amended).** On success, `Run` returns exactly the stored values
whose raw dynamic type is one of the engine's output types and which
convert to the result type; provided entries keep their raw types, which
`validateProvided` bars from the output types, so no provided entry is ever
returned and every returned element arises from a stored output value. -/
theorem C3_collect_outputs
    (target : Ty) (e : Engine) (provided : List Val) (sched : List Fn) (out : List Val)
    (houts : ∀ f ∈ sched, ∀ W ∈ nonErrOuts f, W ∈ e.outputTypes)
    (hok : Run target e provided sched = Except.ok out) :
    (∀ v ∈ provided, tyOf v ∉ e.outputTypes) ∧
    (∀ v ∈ provided,
      storeGet (runTasks e.outputTypes sched ⟨seedStore provided, [], [], none⟩).store
        (tyOf v) = some v) ∧
    out = collect target e.outputTypes
      (runTasks e.outputTypes sched ⟨seedStore provided, [], [], none⟩).store ∧
    (∀ w ∈ out, ∃ x, (∃ k, (k, x) ∈
        (runTasks e.outputTypes sched ⟨seedStore provided, [], [], none⟩).store) ∧
      (e.outputTypes.contains (tyOf x)) = true ∧ convert target x = some w) := by
  obtain ⟨hinit, hval, hfe, hout_eq⟩ := Run_ok_inversion hok
  rw [validateProvided] at hval
  obtain ⟨hnd, hout, -⟩ := vpg_none_facts provided [] hval
  refine ⟨hout, ?_, hout_eq, ?_⟩
  · intro v hv
    rw [runTasks_store_preserved sched _
      (fun f hf hmem => hout v hv (houts f hf (tyOf v) hmem))]
    exact seedStore_get_mem provided v hnd hv
  · intro w hw
    rw [hout_eq] at hw
    obtain ⟨p, hp, hcv⟩ := List.mem_filterMap.mp hw
    obtain ⟨hps, hcond⟩ := List.mem_filter.mp hp
    exact ⟨p.2, ⟨p.1, hps⟩, by simpa using hcond, hcv⟩

/-- Witness for C3: the success run of the engine `{f3 : A → T}` with `A`
provided returns the produced `T` value and keeps the provided value out of
the output types. -/
theorem C3_collect_outputs_witness :
    tyOf vA ∉ e3.outputTypes ∧
    [vT] = collect tT e3.outputTypes
      (runTasks e3.outputTypes [f3] ⟨seedStore [vA], [], [], none⟩).store := by
  have h := C3_collect_outputs tT e3 [vA] [f3] [vT]
    (by
      intro f hf W hW
      rcases List.mem_cons.mp hf with h1 | h1
      · subst h1
        rw [show nonErrOuts f3 = [tT] from rfl] at hW
        rcases List.mem_cons.mp hW with h2 | h2
        · subst h2; exact List.mem_cons_self _ _
        · cases h2
      · cases h1)
    (by decide)
  exact ⟨h.1 vA (by decide), h.2.2.1⟩

/-- **C4 (counterexample).** The claim is false on the code: providing a
`T` and an `Optional[T]` (same unwrapped type) passes `validateProvided`
and the run proceeds, and providing an `Optional[U]` while `U` is produced
also passes — no "duplicate provided input type" or "provided input type
matches function output type" error is raised. -/
theorem C4_counterexample : ¬ claimC4 := fun h => absurd h.1 (by decide)

/-- **C4 (amended).** `validateProvided` compares raw declared types: two
provided entries with the *same raw type* fail with "duplicate provided
input type: T" and a provided entry whose *raw type* is one of the output
types fails with "provided input type matches function output type: T"; in
both cases `Run` fails before any task is launched (no function invoked,
nothing stored, no notifier closed). -/
theorem C4_provided_validation
    (target : Ty) (e : Engine) (provided : List Val) (sched : List Fn)
    (hinit : e.initialized = true) :
    (¬ (provided.map tyOf).Nodup → (∀ v ∈ provided, tyOf v ∉ e.outputTypes) →
      ∃ t, RunFull target e provided sched
        = (Except.error ("duplicate provided input type: " ++ tyStr t),
           ⟨[], [], [], none⟩)) ∧
    ((provided.map tyOf).Nodup → (∃ v ∈ provided, tyOf v ∈ e.outputTypes) →
      ∃ t, t ∈ e.outputTypes ∧ RunFull target e provided sched
        = (Except.error ("provided input type matches function output type: " ++ tyStr t),
           ⟨[], [], [], none⟩)) := by
  constructor
  · intro hdup hout
    obtain ⟨t, ht⟩ := vpg_dup_shape provided [] hout (fun hand => hdup hand.1)
    exact ⟨t, RunFull_validate_err hinit ht⟩
  · intro hnd hex
    obtain ⟨t, htm, ht⟩ := vpg_match_shape provided [] hnd (by simp) hex
    exact ⟨t, htm, RunFull_validate_err hinit ht⟩

/-- Witness for C4: providing two values of the same raw type `T` makes the
run fail before any task starts. -/
theorem C4_provided_validation_witness :
    ¬ ([vT, vT2].map tyOf).Nodup ∧
    ∃ t, RunFull tU e2 [vT, vT2] [g2]
      = (Except.error ("duplicate provided input type: " ++ tyStr t),
         ⟨[], [], [], none⟩) := by
  refine ⟨by decide, ?_⟩
  exact (C4_provided_validation tU e2 [vT, vT2] [g2] rfl).1 (by decide) (by decide)

end Warp

namespace Warp

/-- **C9.** Result collection uses exactly the `convert` relation of the
source: a stored output value is included when its dynamic value satisfies
a type assertion to the result type (exact type match, or interface
assignability for an interface result type); otherwise, when its runtime
type is `ConvertibleTo` the result type, the converted (retyped) value is
appended; otherwise it is excluded.  In particular every stored output
value whose underlying kind equals the result type's underlying kind is
returned after conversion. -/
theorem C9_convert_semantics :
    (∀ (v : Val) (t : Ty), tyOf v = t → convert t v = some v) ∧
    (∀ (v : Val) (i : Nat), implementsI (tyOf v) i = true →
      convert (Ty.iface i) v = some v) ∧
    (∀ (v : Val) (t : Ty), assertTo v t = false → convertibleTo (tyOf v) t = true →
      convert t v = some (retype v t)) ∧
    (∀ (v : Val) (t : Ty), assertTo v t = false → convertibleTo (tyOf v) t = false →
      convert t v = none) ∧
    (∀ (s : Store) (outs : List Ty) (t : Ty) (w : Val) (p : Ty × Val), p ∈ s →
      outs.contains (tyOf p.2) = true → convert t p.2 = some w →
      w ∈ collect t outs s) ∧
    (∀ (s : Store) (outs : List Ty) (n m k pl : Nat) (l l2 : List Nat) (p : Ty × Val),
      p ∈ s → p.2 = Val.base n k l pl → outs.contains (Ty.base n k l) = true →
      Ty.base n k l ≠ Ty.base m k l2 →
      Val.base m k l2 pl ∈ collect (Ty.base m k l2) outs s) := by
  refine ⟨?_, ?_, ?_, ?_, ?_, ?_⟩
  · intro v t h
    simp [convert, assertTo, h]
  · intro v i h
    simp [convert, assertTo, h]
  · intro v t h1 h2
    simp [convert, h1, h2]
  · intro v t h1 h2
    simp [convert, h1, h2]
  · intro s outs t w p hp hcont hcv
    exact List.mem_filterMap.mpr ⟨p, List.mem_filter.mpr ⟨hp, by simpa using hcont⟩, hcv⟩
  · intro s outs n m k pl l l2 p hp hp2 hcont hne
    have hty : tyOf p.2 = Ty.base n k l := by rw [hp2]; rfl
    have hB : assertTo p.2 (Ty.base m k l2) = false := by
      rw [assertTo, hty]
      simp [hne]
      all_goals exact fun i h => Ty.noConfusion h
    have hC : convertibleTo (tyOf p.2) (Ty.base m k l2) = true := by
      rw [hty]
      have hcc : convertibleTo (Ty.base n k l) (Ty.base m k l2)
          = (decide (Ty.base n k l = Ty.base m k l2) || decide (k = k) || false) := rfl
      rw [hcc]
      simp
    have hconv : convert (Ty.base m k l2) p.2 = some (Val.base m k l2 pl) := by
      rw [convert, if_neg (by rw [hB]; simp), if_pos hC, hp2]
      rfl
    exact List.mem_filterMap.mpr
      ⟨p, List.mem_filter.mpr ⟨hp, by rw [hty]; simpa using hcont⟩, hconv⟩

/-- Witness for C9: a named value whose underlying kind matches the result
type is returned retyped; an unrelated value is excluded. -/
theorem C9_convert_semantics_witness :
    Val.base 9 7 [] 42 ∈ collect (Ty.base 9 7 []) [Ty.base 8 7 []]
      [(Ty.base 8 7 [], Val.base 8 7 [] 42)] ∧
    convert (Ty.base 9 7 []) (Val.base 1 1 [] 5) = none := by
  constructor
  · exact C9_convert_semantics.2.2.2.2.2 _ [Ty.base 8 7 []] 8 9 7 42 [] []
      (Ty.base 8 7 [], Val.base 8 7 [] 42) (by decide) rfl (by decide) (by decide)
  · exact C9_convert_semantics.2.2.2.1 (Val.base 1 1 [] 5) (Ty.base 9 7 [])
      (by decide) (by decide)

/-- **C8.** If a registered function returns a non-nil error, `Run` returns
a nil result list with that error; the first error reported is the one
surfaced (later tasks cannot overwrite it), and every task that observes
the cancellation while waiting on a readiness signal returns promptly
without calling its user function and without storing outputs or closing
notifiers. -/
theorem C8_first_error_wins
    (target : Ty) (e : Engine) (provided : List Val) (pre post : List Fn) (f : Fn)
    (args : List Val) (emsg : String)
    (hinit : e.initialized = true)
    (hval : validateProvided provided e.outputTypes = none)
    (hsig : ScheduleOK (pre ++ f :: post))
    (hpre : (runTasks e.outputTypes pre ⟨seedStore provided, [], [], none⟩).firstErr = none)
    (hres : resolveIns false e.outputTypes
      (runTasks e.outputTypes pre ⟨seedStore provided, [], [], none⟩).store f
        = Resolved.ok args)
    (herr : getError (f.body args) (errPos f) = some emsg) :
    Run target e provided (pre ++ f :: post) = Except.error emsg ∧
    (runTasks e.outputTypes (pre ++ f :: post)
      ⟨seedStore provided, [], [], none⟩).firstErr = some emsg ∧
    (∀ (st : RState) (g : Fn),
      resolveIns st.firstErr.isSome e.outputTypes st.store g = Resolved.aborted →
      runTask e.outputTypes st g = st) ∧
    (∀ (st : RState) (g : Fn) (T : Ty) (restT : List Ty),
      st.firstErr.isSome = true → g.ins = T :: restT → ¬ (ctxPos g = some 0) →
      e.outputTypes.contains (unwrapOptional T).1 = true →
      runTask e.outputTypes st g = st) := by
  have hsplit : runTasks e.outputTypes (pre ++ f :: post) ⟨seedStore provided, [], [], none⟩
      = runTasks e.outputTypes post
          (runTask e.outputTypes
            (runTasks e.outputTypes pre ⟨seedStore provided, [], [], none⟩) f) := by
    rw [runTasks_append]
    simp [runTasks]
  have hF := @runTask_of_ok_err e.outputTypes _ _ _ _ hpre hres herr
  have hfinal : (runTasks e.outputTypes (pre ++ f :: post)
      ⟨seedStore provided, [], [], none⟩).firstErr = some emsg := by
    rw [hsplit]
    exact runTasks_firstErr_some post _ (by rw [hF])
  refine ⟨?_, hfinal, ?_, ?_⟩
  · rw [Run, RunFull, if_neg (by simp [hinit]), hval]
    simp only [hfinal]
  · intro st g hres2
    exact runTask_of_aborted hres2
  · intro st g T restT hsome hins hctx hcont
    apply runTask_of_aborted
    rw [resolveIns, hins, resolveGo, if_neg hctx, if_pos (by rw [hcont, hsome]; rfl)]

/-- Witness for C8: the one-function engine whose body reports "boom". -/
theorem C8_first_error_wins_witness :
    Run tB e8 [vA] [w8f] = Except.error "boom" :=
  (C8_first_error_wins tB e8 [vA] [] [] w8f [vA] "boom" rfl (by decide)
    (by constructor <;> simp) rfl (by decide) (by decide)).1

/-- **C10.** Every task that finishes without an error closes the readiness
channel of each of its non-error output types exactly once — on the ran
path and on the skip path alike — so in an error-free run the close events
are exactly the non-error outputs of the scheduled functions, each closed
exactly once; and no channel is ever closed twice. -/
theorem C10_close_exactly_once
    (notif : List Ty) (sched : List Fn) (provided : List Val)
    (hsig : ScheduleOK sched)
    (hnd : ((sched.map nonErrOuts).flatten).Nodup) :
    (∀ U, ((runTasks notif sched ⟨seedStore provided, [], [], none⟩).closed).count U ≤ 1) ∧
    ((runTasks notif sched ⟨seedStore provided, [], [], none⟩).firstErr = none →
      (runTasks notif sched ⟨seedStore provided, [], [], none⟩).closed
        = (sched.map nonErrOuts).flatten) := by
  constructor
  · intro U
    obtain ⟨d, hd, hsub⟩ := runTasks_closed_sublist sched
      (⟨seedStore provided, [], [], none⟩ : RState)
    rw [hd]
    simp only [List.nil_append]
    exact le_trans (hsub.count_le U) (List.nodup_iff_count_le_one.mp hnd U)
  · intro h
    have h2 := runTasks_closed_complete sched
      (⟨seedStore provided, [], [], none⟩ : RState) h
    simpa using h2

/-- Witness for C10: the error-free two-function run closes `B` and `C`
exactly once each. -/
theorem C10_close_exactly_once_witness :
    ((runTasks [tB, tC] [w7B, w7C] ⟨seedStore [], [], [], none⟩).closed).count tB ≤ 1 ∧
    (runTasks [tB, tC] [w7B, w7C] ⟨seedStore [], [], [], none⟩).closed
      = ([w7B, w7C].map nonErrOuts).flatten := by
  have h := C10_close_exactly_once [tB, tC] [w7B, w7C] []
    (by constructor
        · intro g hg
          rcases List.mem_cons.mp hg with h1 | h1
          · subst h1
            intro inT hin
            rw [show w7B.ins = [tA] from rfl] at hin
            rcases List.mem_cons.mp hin with h2 | h2
            · subst h2; decide
            · cases h2
          · cases h1
        · constructor
          · intro g hg; cases hg
          · constructor)
    (by decide)
  exact ⟨h.1 tB, h.2 rfl⟩

end Warp

namespace Warp

theorem findSome?_some_mem {α β : Type} {l : List α} {k : α → Option β} {e : β}
    (h : l.findSome? k = some e) : ∃ x ∈ l, k x = some e := by
  induction l with
  | nil => cases h
  | cons a t ih =>
    cases ha : k a with
    | some b =>
      rw [List.findSome?_cons_of_isSome _ (by simp [ha])] at h
      exact ⟨a, List.mem_cons_self a t, h⟩
    | none =>
      rw [List.findSome?_cons_of_isNone _ (by simp [ha])] at h
      obtain ⟨x, hx, hk⟩ := ih h
      exact ⟨x, List.mem_cons_of_mem a hx, hk⟩

theorem length_filter_eq_count (t : Ty) :
    ∀ l : List Ty, (l.filter (fun u => u = t)).length = l.count t := by
  intro l
  induction l with
  | nil => rfl
  | cons u rest ih =>
    by_cases h : u = t
    · subst h
      simp [List.filter_cons, List.count_cons, ih]
    · simp [List.filter_cons, List.count_cons, h, ih]

theorem providersOf_length (fns : List Fn) (t : Ty) :
    (providersOf fns t).length = ((fns.map nonErrOuts).flatten).count t := by
  induction fns with
  | nil => rfl
  | cons f rest ih =>
    rw [providersOf, List.map_cons, List.flatten_cons, List.length_append,
      List.map_cons, List.flatten_cons, List.count_append]
    rw [show ((rest.map fun g => ((nonErrOuts g).filter (fun u => u = t)).map
        fun _ => g).flatten) = providersOf rest t from rfl, ih]
    simp [length_filter_eq_count]

theorem exists_dup_of_not_nodup {l : List Ty} (h : ¬ l.Nodup) :
    ∃ t ∈ l, 2 ≤ l.count t := by
  have h2 : ¬ ∀ a, l.count a ≤ 1 := fun hall => h (List.nodup_iff_count_le_one.mpr hall)
  push_neg at h2
  obtain ⟨t, ht⟩ := h2
  refine ⟨t, ?_, ht⟩
  have : 0 < l.count t := by omega
  exact List.count_pos_iff_mem.mp this

/-- `validateOutputTypesUnique` fails on a duplicated output type, naming
all providers of the chosen type. -/
theorem validateOutputTypesUnique_of_dup {fns : List Fn}
    (hdup : ¬ ((fns.map nonErrOuts).flatten).Nodup) :
    ∃ t, 2 ≤ (providersOf fns t).length ∧
      validateOutputTypesUnique fns
        = some ("output value type " ++ tyStr t ++ " already provided to the engine by "
            ++ " AND ".intercalate ((providersOf fns t).map Fn.name)) := by
  obtain ⟨t0, ht0mem, ht0c⟩ := exists_dup_of_not_nodup hdup
  cases hv : validateOutputTypesUnique fns with
  | none =>
    exfalso
    have hv2 : ((fns.map nonErrOuts).flatten).findSome? (fun t =>
        if (providersOf fns t).length > 1 then
          some ("output value type " ++ tyStr t ++ " already provided to the engine by "
            ++ " AND ".intercalate ((providersOf fns t).map Fn.name))
        else none) = none := hv
    rw [List.findSome?_eq_none_iff] at hv2
    have h3 : (if (providersOf fns t0).length > 1 then
        some ("output value type " ++ tyStr t0 ++ " already provided to the engine by "
          ++ " AND ".intercalate ((providersOf fns t0).map Fn.name))
        else none) = none := hv2 t0 ht0mem
    rw [if_pos (by rw [providersOf_length]; omega)] at h3
    cases h3
  | some e =>
    have hv2 : ((fns.map nonErrOuts).flatten).findSome? (fun t =>
        if (providersOf fns t).length > 1 then
          some ("output value type " ++ tyStr t ++ " already provided to the engine by "
            ++ " AND ".intercalate ((providersOf fns t).map Fn.name))
        else none) = some e := hv
    obtain ⟨t1, ht1, hk1⟩ := findSome?_some_mem hv2
    have hk2 : (if (providersOf fns t1).length > 1 then
        some ("output value type " ++ tyStr t1 ++ " already provided to the engine by "
          ++ " AND ".intercalate ((providersOf fns t1).map Fn.name))
        else none) = some e := hk1
    by_cases h1 : (providersOf fns t1).length > 1
    · rw [if_pos h1] at hk2
      injection hk2 with hk3
      exact ⟨t1, by omega, congrArg some hk3.symm⟩
    · rw [if_neg h1] at hk2
      cases hk2

theorem Initialize_ok_inversion {fns : List Fn} {e : Engine}
    (h : Initialize fns = Except.ok e) :
    (∀ f ∈ fns, validateFn f = none) ∧ validateOutputTypesUnique fns = none ∧
    validateNoCyclicDependancies fns = none ∧
    e.outputTypes = (fns.map nonErrOuts).flatten := by
  rw [Initialize] at h
  by_cases h0 : fns.isEmpty = true
  · rw [if_pos h0] at h; cases h
  · rw [if_neg h0] at h
    cases h1 : fns.findSome? (fun f => (validateFn f).map (wrapValidationErrorWithInput f)) with
    | some m => rw [h1] at h; cases h
    | none =>
      rw [h1] at h
      have hfn : ∀ f ∈ fns, validateFn f = none := by
        rw [List.findSome?_eq_none_iff] at h1
        intro f hf
        have h2 : (validateFn f).map (wrapValidationErrorWithInput f) = none := h1 f hf
        cases hv : validateFn f with
        | none => rfl
        | some m => rw [hv] at h2; cases h2
      cases h2 : validateOutputTypesUnique fns with
      | some m => rw [h2] at h; cases h
      | none =>
        rw [h2] at h
        cases h3 : validateNoCyclicDependancies fns with
        | some m => rw [h3] at h; cases h
        | none =>
          rw [h3] at h
          cases h
          exact ⟨hfn, rfl, rfl, rfl⟩

/-- With a passing per-function pass, `Initialize` surfaces the
cross-function validation errors wrapped in "input validation error: ". -/
theorem Initialize_cross_error {fns : List Fn} (hne : fns ≠ [])
    (hfn : ∀ f ∈ fns, validateFn f = none) :
    (∀ m, validateOutputTypesUnique fns = some m →
      Initialize fns = Except.error (wrapValidationError m)) ∧
    (validateOutputTypesUnique fns = none →
      ∀ m, validateNoCyclicDependancies fns = some m →
        Initialize fns = Except.error (wrapValidationError m)) := by
  have hfind : fns.findSome?
      (fun f => (validateFn f).map (wrapValidationErrorWithInput f)) = none := by
    rw [List.findSome?_eq_none_iff]
    intro f hf
    show (validateFn f).map (wrapValidationErrorWithInput f) = none
    rw [hfn f hf]
    rfl
  constructor
  · intro m hm
    rw [Initialize, if_neg (by simpa [List.isEmpty_iff] using hne), hfind, hm]
  · intro hnone m hm
    rw [Initialize, if_neg (by simpa [List.isEmpty_iff] using hne), hfind, hnone, hm]

end Warp

namespace Warp

/-- **C5 (counterexample).** The claim is false on the code: with one
function returning `T` and another returning `Optional[T]`, `Initialize`
does fail, but with the per-function "must not be an optional type" error
naming only the `Optional`-returning function `funcG` — the error does not
also name `funcF`, so it does not identify both offending producers as the
claim requires. -/
theorem C5_counterexample : ¬ claimC5 := by
  intro h
  obtain ⟨m, hm, hF, -⟩ := h
  have hI : Initialize [f5T, f5O] = Except.error
      "input funcG caused validation error: Optional[T5] must not be an optional type" := rfl
  rw [hI] at hm
  injection hm with hm2
  rw [← hm2] at hF
  exact absurd hF (by decide)

/-- **C5 (amended).** Output-type uniqueness is checked on raw return
types: when every registered function passes the per-function pass and two
of them produce the identical raw non-error return type, `Initialize` fails
with an error naming every provider of the duplicated type.  A function
returning an `Optional` type never reaches this check — it is rejected by
the per-function pass.  Conversely, on a successfully built engine the
output types are pairwise distinct, each has exactly one provider, and none
is `Optional`. -/
theorem C5_unique_producers (fns : List Fn) :
    ((fns ≠ []) → (∀ f ∈ fns, validateFn f = none) →
      ¬ ((fns.map nonErrOuts).flatten).Nodup →
      ∃ t, 2 ≤ (providersOf fns t).length ∧
        Initialize fns = Except.error (wrapValidationError
          ("output value type " ++ tyStr t ++ " already provided to the engine by "
            ++ " AND ".intercalate ((providersOf fns t).map Fn.name)))) ∧
    (∀ e, Initialize fns = Except.ok e →
      e.outputTypes.Nodup ∧
      ∀ t ∈ e.outputTypes, (providersOf fns t).length = 1 ∧ isOptionalT t = false) := by
  constructor
  · intro hne hfn hdup
    obtain ⟨t, htlen, hval⟩ := validateOutputTypesUnique_of_dup hdup
    exact ⟨t, htlen, (Initialize_cross_error hne hfn).1 _ hval⟩
  · intro e he
    obtain ⟨hfn, huniq, -, houts⟩ := Initialize_ok_inversion he
    have hcount : ∀ t ∈ (fns.map nonErrOuts).flatten, (providersOf fns t).length = 1 := by
      intro t ht
      have huniq2 : ((fns.map nonErrOuts).flatten).findSome? (fun u =>
          if (providersOf fns u).length > 1 then
            some ("output value type " ++ tyStr u ++ " already provided to the engine by "
              ++ " AND ".intercalate ((providersOf fns u).map Fn.name))
          else none) = none := huniq
      rw [List.findSome?_eq_none_iff] at huniq2
      have h2 : (if (providersOf fns t).length > 1 then
          some ("output value type " ++ tyStr t ++ " already provided to the engine by "
            ++ " AND ".intercalate ((providersOf fns t).map Fn.name))
          else none) = none := huniq2 t ht
      by_cases h1 : (providersOf fns t).length > 1
      · rw [if_pos h1] at h2; cases h2
      · have hpos : 1 ≤ (providersOf fns t).length := by
          rw [providersOf_length]
          exact List.count_pos_iff_mem.mpr ht
        omega
    have hnodup : ((fns.map nonErrOuts).flatten).Nodup := by
      rw [List.nodup_iff_count_le_one]
      intro t
      by_cases ht : t ∈ (fns.map nonErrOuts).flatten
      · rw [← providersOf_length, hcount t ht]
      · rw [List.count_eq_zero_of_not_mem ht]
        omega
    rw [houts]
    refine ⟨hnodup, fun t ht => ⟨hcount t ht, ?_⟩⟩
    obtain ⟨outsl, houtsl, htout⟩ := List.mem_flatten.mp ht
    obtain ⟨f, hf, hfeq⟩ := List.mem_map.mp houtsl
    have hv := hfn f hf
    rw [validateFn, List.findSome?_eq_none_iff] at hv
    have hvo : validateNoOutputOptionalTypes f = none :=
      hv validateNoOutputOptionalTypes (by simp [perFnValidators])
    rw [validateNoOutputOptionalTypes, List.findSome?_eq_none_iff] at hvo
    rw [← hfeq] at htout
    have htout2 : t ∈ f.outs := (List.mem_filter.mp htout).1
    have h3 : (if isOptionalT t then some (tyStr t ++ " must not be an optional type")
        else none) = none := hvo t htout2
    by_cases ho : isOptionalT t = true
    · rw [if_pos ho] at h3; cases h3
    · simpa using ho

/-- Witness for C5: two producers of the same raw `T` are rejected with the
uniqueness error naming both. -/
theorem C5_unique_producers_witness :
    ¬ (([d5a, d5b].map nonErrOuts).flatten).Nodup ∧
    ∃ t, 2 ≤ (providersOf [d5a, d5b] t).length ∧
      Initialize [d5a, d5b] = Except.error (wrapValidationError
        ("output value type " ++ tyStr t ++ " already provided to the engine by "
          ++ " AND ".intercalate ((providersOf [d5a, d5b] t).map Fn.name))) := by
  refine ⟨by decide, ?_⟩
  apply (C5_unique_producers [d5a, d5b]).1
  · simp
  · intro f hf
    rcases List.mem_cons.mp hf with h1 | h1
    · subst h1; rfl
    · rcases List.mem_cons.mp h1 with h2 | h2
      · subst h2; rfl
      · cases h2
  · decide

end Warp

namespace Warp

/-- Every error of `checkCyclicDependancies` starts with
"cyclic dependency detected: ". -/
theorem checkCyclic_shape (fns : List Fn) :
    ∀ fuel f path m, checkCyclic fuel f path fns = some m →
    ∃ s, m = "cyclic dependency detected: " ++ s := by
  intro fuel
  induction fuel with
  | zero =>
    intro f path m h
    have h2 : some "cyclic dependency detected: [fuel exhausted]" = some m := h
    injection h2 with h3
    exact ⟨"[fuel exhausted]", by rw [← h3]; decide⟩
  | succ fuel ih =>
    intro f path m h
    simp only [checkCyclic] at h
    by_cases hc : (path.map sig).contains (sig f)
    · rw [if_pos hc] at h
      injection h with h2
      exact ⟨cyclicDependencyPath path, h2.symm⟩
    · rw [if_neg hc] at h
      obtain ⟨outT, houtT, h2⟩ := findSome?_some_mem h
      have h3 : (if outT = Ty.errT then (none : Option String)
          else fns.findSome? fun g => g.ins.findSome? fun inT =>
            if (unwrapOptional inT).1 = (unwrapOptional outT).1 then
              checkCyclic fuel g (path ++ [f]) fns
            else none) = some m := h2
      by_cases he : outT = Ty.errT
      · rw [if_pos he] at h3; cases h3
      · rw [if_neg he] at h3
        obtain ⟨g, hg, h4⟩ := findSome?_some_mem h3
        have h5 : (g.ins.findSome? fun inT =>
            if (unwrapOptional inT).1 = (unwrapOptional outT).1 then
              checkCyclic fuel g (path ++ [f]) fns
            else none) = some m := h4
        obtain ⟨inT, hinT, h6⟩ := findSome?_some_mem h5
        have h7 : (if (unwrapOptional inT).1 = (unwrapOptional outT).1 then
            checkCyclic fuel g (path ++ [f]) fns
            else none) = some m := h6
        by_cases hi : (unwrapOptional inT).1 = (unwrapOptional outT).1
        · rw [if_pos hi] at h7
          exact ih g (path ++ [f]) m h7
        · rw [if_neg hi] at h7; cases h7

/-- If `checkCyclic` returns no error at `f`, the signature of `f` is not
on the path and the check also returns no error across every dependency
edge out of `f`. -/
theorem checkCyclic_none_step {fns : List Fn} {fuel : Nat} {f : Fn} {path : List Fn}
    (h : checkCyclic (fuel + 1) f path fns = none) :
    ¬ (path.map sig).contains (sig f) ∧
    ∀ g ∈ fns, Edge f g → checkCyclic fuel g (path ++ [f]) fns = none := by
  simp only [checkCyclic] at h
  by_cases hc : (path.map sig).contains (sig f)
  · rw [if_pos hc] at h; cases h
  · rw [if_neg hc] at h
    refine ⟨hc, ?_⟩
    rintro g hg ⟨outT, houtT, hne, inT, hinT, heq⟩
    have h2 : (if outT = Ty.errT then (none : Option String)
        else fns.findSome? fun g => g.ins.findSome? fun inT =>
          if (unwrapOptional inT).1 = (unwrapOptional outT).1 then
            checkCyclic fuel g (path ++ [f]) fns
          else none) = none := (List.findSome?_eq_none_iff.mp h) outT houtT
    rw [if_neg hne] at h2
    have h3 : (g.ins.findSome? fun inT =>
        if (unwrapOptional inT).1 = (unwrapOptional outT).1 then
          checkCyclic fuel g (path ++ [f]) fns
        else none) = none := (List.findSome?_eq_none_iff.mp h2) g hg
    have h4 : (if (unwrapOptional inT).1 = (unwrapOptional outT).1 then
        checkCyclic fuel g (path ++ [f]) fns
        else none) = none := (List.findSome?_eq_none_iff.mp h3) inT hinT
    rw [if_pos heq] at h4
    exact h4

/-- Completeness of the cyclic check: a dependency walk that revisits a
signature already on the path forces an error, given enough fuel. -/
theorem checkCyclic_complete (fns : List Fn) :
    ∀ (c : List Fn) (fuel : Nat) (f : Fn) (path : List Fn),
    c ≠ [] → c.length ≤ fuel → EdgeChain fns f c →
    sig (c.getLastD f) ∈ ((path ++ f :: c.dropLast).map sig) →
    checkCyclic (fuel + 1) f path fns ≠ none := by
  intro c
  induction c with
  | nil =>
    intro fuel f path hne
    exact absurd rfl hne
  | cons g r ih =>
    intro fuel f path _ hlen hchain hmem hnone
    obtain ⟨hedge, hgmem, hchain2⟩ := hchain
    obtain ⟨-, hstep⟩ := checkCyclic_none_step hnone
    obtain ⟨fuel2, rfl⟩ : ∃ fuel2, fuel = fuel2 + 1 :=
      ⟨fuel - 1, by simp at hlen; omega⟩
    have hnone2 := hstep g hgmem hedge
    cases r with
    | nil =>
      obtain ⟨hnc2, -⟩ := checkCyclic_none_step hnone2
      apply hnc2
      have hmem2 : sig g ∈ ((path ++ [f]).map sig) := by
        simpa [List.getLastD] using hmem
      exact List.elem_iff.mpr hmem2
    | cons g2 r2 =>
      refine ih fuel2 g (path ++ [f]) (by simp) (by simp at hlen ⊢; omega) hchain2 ?_ hnone2
      have hmem2 : sig ((g2 :: r2).getLastD g)
          ∈ ((path ++ f :: g :: (g2 :: r2).dropLast).map sig) := by
        simpa [List.getLastD_cons] using hmem
      simpa [List.append_assoc] using hmem2

/-- A cycle inside the registered functions always makes
`validateNoCyclicDependancies` fail. -/
theorem validateNoCyclic_some_of_cycle {fns : List Fn} {f : Fn} {c : List Fn}
    (hf : f ∈ fns) (hne : c ≠ []) (hlen : c.length ≤ fns.length)
    (hchain : EdgeChain fns f c)
    (hmem : sig (c.getLastD f) ∈ ((f :: c.dropLast).map sig)) :
    ∃ m, validateNoCyclicDependancies fns = some m ∧
      ∃ s, m = "cyclic dependency detected: " ++ s := by
  cases hv : validateNoCyclicDependancies fns with
  | none =>
    exfalso
    have hv2 : fns.findSome? (fun f => checkCyclic (fns.length + 1) f [] fns) = none := hv
    have h2 : checkCyclic (fns.length + 1) f [] fns = none :=
      (List.findSome?_eq_none_iff.mp hv2) f hf
    exact checkCyclic_complete fns c fns.length f [] hne hlen hchain
      (by simpa using hmem) h2
  | some m =>
    have hv2 : fns.findSome? (fun f => checkCyclic (fns.length + 1) f [] fns) = some m := hv
    obtain ⟨f2, hf2, hk⟩ := findSome?_some_mem hv2
    exact ⟨m, rfl, checkCyclic_shape fns (fns.length + 1) f2 [] m hk⟩

end Warp

namespace Warp

/-- **C6 (counterexample).** The claim is false on the code: when the cycle
runs through an `Optional`-wrapped *output* (`A → Optional[B]`,
`B → A`), `Initialize` fails before the cyclic check ever runs — the
per-function pass rejects the `Optional` output of `fc6`, and the error is
"must not be an optional type", not a cyclic-dependency error. -/
theorem C6_counterexample : ¬ claimC6 := by
  intro h
  obtain ⟨m, hm, hcy⟩ := h
  have hI : Initialize [fc6, gc6] = Except.error
      "input fc6 caused validation error: Optional[T2] must not be an optional type" := rfl
  rw [hI] at hm
  injection hm with hm2
  rw [← hm2] at hcy
  exact absurd hcy (by decide)

/-- **C6 (amended).** The cyclic check follows edges under `unwrapOptional`
on *input* types only (an `Optional` output never survives the
per-function pass).  If every function passes the per-function pass, the
output types are unique, and the dependency graph contains a walk
`f → g₁ → … → gₖ` (inside the registered functions) whose endpoint
revisits a signature already on the walk, then `Initialize` fails with
"input validation error: cyclic dependency detected: " followed by the
offending path.  In particular cycles through `Optional`-wrapped *inputs*
are detected. -/
theorem C6_cycle_detected (fns : List Fn) (f : Fn) (c : List Fn)
    (hne : fns ≠ []) (hfv : ∀ g ∈ fns, validateFn g = none)
    (huniq : validateOutputTypesUnique fns = none)
    (hf : f ∈ fns) (hcne : c ≠ []) (hclen : c.length ≤ fns.length)
    (hchain : EdgeChain fns f c)
    (hmem : sig (c.getLastD f) ∈ ((f :: c.dropLast).map sig)) :
    ∃ s, Initialize fns
      = Except.error (wrapValidationError ("cyclic dependency detected: " ++ s)) := by
  obtain ⟨m, hm, s, hs⟩ := validateNoCyclic_some_of_cycle hf hcne hclen hchain hmem
  refine ⟨s, ?_⟩
  rw [← hs]
  exact (Initialize_cross_error hne hfv).2 huniq m hm

/-- Witness for C6: the two-function cycle `Optional[A] → B`,
`Optional[B] → A` (optional wrapping on the input side) is rejected with a
cyclic-dependency error. -/
theorem C6_cycle_detected_witness :
    ∃ s, Initialize [f6w, g6w]
      = Except.error (wrapValidationError ("cyclic dependency detected: " ++ s)) := by
  apply C6_cycle_detected [f6w, g6w] f6w [g6w, f6w]
  · simp
  · intro g hg
    rcases List.mem_cons.mp hg with h1 | h1
    · subst h1; rfl
    · rcases List.mem_cons.mp h1 with h2 | h2
      · subst h2; rfl
      · cases h2
  · rfl
  · exact List.mem_cons_self _ _
  · simp
  · decide
  · exact ⟨⟨tB, by decide, by decide, Ty.opt tB, by decide, by decide⟩,
      List.mem_cons_of_mem _ (List.mem_cons_self _ _),
      ⟨tA, by decide, by decide, Ty.opt tA, by decide, by decide⟩,
      List.mem_cons_self _ _, trivial⟩
  · decide

end Warp

namespace Warp

/-- Witness for C7: with nothing provided, `A → B` is skipped and
`B → C` is transitively skipped — it is never called and the absent type
`B` is not in the final store. -/
theorem C7_skip_protocol_witness :
    "w7C" ∉ (runTasks [tB, tC] [w7B, w7C] ⟨seedStore [], [], [], none⟩).called ∧
    storeGet (runTasks [tB, tC] [w7B, w7C] ⟨seedStore [], [], [], none⟩).store tB
      = none := by
  have hs : ScheduleOK [w7B, w7C] := by
    unfold ScheduleOK
    decide
  have h := (C7_skip_protocol [tB, tC] [w7B, w7C] [] hs (by decide)).2 rfl w7C
    (List.mem_cons_of_mem _ (List.mem_cons_self _ _)) ⟨tB, by decide, 2, by decide⟩
  exact ⟨h.1, h.2.2 tB (by decide) ⟨2, by decide⟩⟩

end Warp
